import Mathlib

/-! simple-item-filter: the click handler of `src/simple-item-filter.js`

A shallow embedding of `SimpleItemFilter`: class attributes are lists of
characters, the filter state is the pair of arrays `activePrimaryFilters`
and `activeSecondaryFilters` together with the class attribute of every
element of the group, and `mainLoop` is a function from states to states
that fails (`none`) where the JavaScript throws.
-/

namespace SimpleItemFilter

/-- A JavaScript string (well-formed Unicode), as its list of characters. -/
abbrev Str := List Char

/-! ## White space and splitting -/

/-- The regular-expression class `\s` of JavaScript. -/
def isRegexSpace (c : Char) : Bool :=
  c.toNat = 0x09 || c.toNat = 0x0A || c.toNat = 0x0B || c.toNat = 0x0C || c.toNat = 0x0D ||
  c.toNat = 0x20 || c.toNat = 0xA0 || c.toNat = 0x1680 ||
  (0x2000 ≤ c.toNat && c.toNat ≤ 0x200A) ||
  c.toNat = 0x2028 || c.toNat = 0x2029 || c.toNat = 0x202F || c.toNat = 0x205F ||
  c.toNat = 0x3000 || c.toNat = 0xFEFF

/-- ASCII white space, on which the DOM splits a class attribute into the
tokens of `classList`. -/
def isTokenSpace (c : Char) : Bool :=
  c.toNat = 0x09 || c.toNat = 0x0A || c.toNat = 0x0C || c.toNat = 0x0D || c.toNat = 0x20

/-- The first character of a string is white space (for `sp`). -/
def startsWithSpace (sp : Char → Bool) : Str → Bool
  | [] => false
  | c :: _ => sp c

/-- `s.split(/\s+/)` for the white-space class `sp`: the pieces between the
maximal runs of white space, the empty pieces at either end included. -/
def splitOn (sp : Char → Bool) : Str → List Str
  | [] => [[]]
  | c :: rest =>
    match splitOn sp rest with
    | [] => [[c]]
    | t :: ts =>
      if sp c then (if startsWithSpace sp rest then t :: ts else [] :: t :: ts)
      else (c :: t) :: ts

/-- The non-empty pieces of a class attribute. -/
def tokensOf (sp : Char → Bool) (s : Str) : List Str :=
  (splitOn sp s).filter (fun t => !t.isEmpty)

/-- Append to an ordered set: nothing happens when the token is there. -/
def appendNew (acc : List Str) (t : Str) : List Str :=
  if acc.contains t then acc else acc ++ [t]

/-- The token list `element.classList` of a class attribute: the tokens
between ASCII white space, each kept once, at its first place. -/
def classList (s : Str) : List Str :=
  (tokensOf isTokenSpace s).foldl appendNew []

/-! ## The private helpers of the constructor -/

/-- `getElementsByClass(cssClass, elementsList)`: the elements whose class
attribute, split on `/\s+/`, includes `cssClass`. -/
def getElementsByClass (cssClass : Str) (elementsList : List Str) : List Str :=
  elementsList.filter (fun element => (splitOn isRegexSpace element).contains cssClass)

/-- `getClassStaringWith(start, classes)`: the last class that starts with
`start`, the empty string when there is none. -/
def getClassStaringWith (start : Str) (classes : List Str) : Str :=
  classes.foldl (fun out i => if start.isPrefixOf i then i else out) []

/-- Match of `name(\s|$)` at the beginning of `s`: the number of characters
consumed. -/
def matchTail (name : Str) (s : Str) : Option Nat :=
  if name.isPrefixOf s then
    match s.drop name.length with
    | [] => some name.length
    | c :: _ => if isRegexSpace c then some (name.length + 1) else none
  else none

/-- Match of `\sname(\s|$)` at the beginning of `s`: the number of
characters consumed. -/
def matchAfterSpace (name : Str) : Str → Option Nat
  | [] => none
  | c :: rest => if isRegexSpace c then (matchTail name rest).map (· + 1) else none

/-- Match of `(\s|^)name(\s|$)` anchored at the current position, `atStart`
telling whether that position is the beginning of the string: the number of
characters consumed. The alternative `\s` is tried before `^`. The name is
matched literally, which is what the pattern does for a name free of
regular-expression metacharacters. -/
def matchHere (name : Str) (atStart : Bool) (s : Str) : Option Nat :=
  match matchAfterSpace name s with
  | some n => some n
  | none => if atStart then matchTail name s else none

/-- The match at the current position when there is one, else the first
match further on, one place to the right. -/
def matchOr (here : Option Nat) (later : Option (Nat × Nat)) : Option (Nat × Nat) :=
  match here with
  | some n => some (0, n)
  | none => later.map (fun p => (p.1 + 1, p.2))

/-- The leftmost match of `(\s|^)name(\s|$)` in `s`: its position and its
length. -/
def findMatch (name : Str) : Bool → Str → Option (Nat × Nat)
  | atStart, [] => matchOr (matchHere name atStart []) none
  | atStart, c :: rest => matchOr (matchHere name atStart (c :: rest)) (findMatch name false rest)

/-- The replacement `.replace(/^\s+|\s+$/g, '')`. -/
def trim (s : Str) : Str :=
  ((s.dropWhile isRegexSpace).reverse.dropWhile isRegexSpace).reverse

/-- `hasClass(el, name)` on the class attribute `className` of `el`. -/
def hasClass (className name : Str) : Bool :=
  (findMatch name true className).isSome

/-- `addClass(el, name)`: the new class attribute. -/
def addClass (className name : Str) : Str :=
  if !hasClass className name then
    className ++ (if className ≠ [] then " ".toList else []) ++ name
  else className

/-- `removeClass(el, name)`: the new class attribute; the first match is
replaced by one blank and the result is trimmed. -/
def removeClass (className name : Str) : Str :=
  match findMatch name true className with
  | some (i, n) => trim (className.take i ++ ' ' :: className.drop (i + n))
  | none => className

/-! ## Arrays of filter tags -/

/-- The UTF-16 code units of a character. -/
def utf16Units (c : Char) : List Nat :=
  if c.toNat < 0x10000 then [c.toNat]
  else [0xD800 + (c.toNat - 0x10000) / 0x400, 0xDC00 + (c.toNat - 0x10000) % 0x400]

/-- The UTF-16 code units of a string. -/
def codeUnits (s : Str) : List Nat :=
  (s.map utf16Units).flatten

/-- Lexicographic order on code-unit sequences, by which the default
comparison of `Array.prototype.sort` orders strings. -/
def unitsLe : List Nat → List Nat → Bool
  | [], _ => true
  | _ :: _, [] => false
  | a :: as, b :: bs => a < b || (a == b && unitsLe as bs)

/-- The order of `Array.prototype.sort()` without a comparison function on
an array of strings and `undefined` (here `none`): `undefined` goes last. -/
def sortLe : Option Str → Option Str → Bool
  | _, none => true
  | none, some _ => false
  | some a, some b => unitsLe (codeUnits a) (codeUnits b)

/-- `Array.prototype.sort()` without a comparison function. -/
def jsSort (l : List (Option Str)) : List (Option Str) :=
  l.insertionSort (fun a b => sortLe a b = true)

/-- `Array.prototype.lastIndexOf`, `none` standing for `-1`. -/
def lastIndexOf : List Str → Str → Option Nat
  | [], _ => none
  | a :: l, x =>
    match lastIndexOf l x with
    | some i => some (i + 1)
    | none => if a = x then some 0 else none

/-- The statement `a.splice(a.lastIndexOf(x), 1)`: the array afterwards. A
start of `-1` removes the last element. -/
def spliceLast (a : List Str) (x : Str) : List Str :=
  match lastIndexOf a x with
  | some i => a.eraseIdx i
  | none => a.dropLast

/-- The statements `a[a.lastIndexOf(x)] = undefined; a.sort().pop()`: the
array afterwards. An index of `-1` leaves the elements as they are. -/
def sortPop (a : List Str) (x : Str) : List Str :=
  let marked : List (Option Str) :=
    match lastIndexOf a x with
    | some i => (a.map some).set i none
    | none => a.map some
  ((jsSort marked).dropLast).filterMap id

/-- `String.prototype.includes`: `needle` occurs in `hay`. -/
def strIncludes (hay needle : Str) : Bool :=
  hay.tails.any (fun t => needle.isPrefixOf t)

/-! ## Configuration, host and state -/

/-- The click event as far as the handler reads it: the class attribute of
`currentTarget`, the element the listener is bound to, and of `target`. -/
structure Event where
  currentTarget : Str
  target : Str

/-- The properties of the constructed object. `pfx` is the property
`prefix`; `btnFn` is `none` for `undefined`. -/
structure Config where
  pfx : Str
  activeClass : Str
  hiddenClass : Str
  multiselect : Bool
  fade : Bool
  fadeClass : Str
  toggle : Bool
  btnFn : Option (Event → Bool)

/-- What the browser supplies: `hasProperty key tokens` is the value of
`key in element.classList` for a `classList` with the tokens `tokens`. -/
structure Host where
  hasProperty : Str → List Str → Bool

/-- The argument `btnType` of `mainLoop`, as `clickHandler` passes it. -/
inductive Lane where
  | primary
  | secondary
  deriving DecidableEq, Repr

/-- The variables `elements` (each element by its class attribute),
`activePrimaryFilters` and `activeSecondaryFilters` of the closure. -/
structure State where
  elements : List Str
  activePrimaryFilters : List Str
  activeSecondaryFilters : List Str
  deriving DecidableEq, Repr

/-- The constant `btnPriClass`. -/
def btnPriClass (cfg : Config) : Str := cfg.pfx ++ "-btn-primary".toList

/-- The constant `btnSecClass`. -/
def btnSecClass (cfg : Config) : Str := cfg.pfx ++ "-btn-secondary".toList

/-- The class of an item. -/
def itemClass (cfg : Config) : Str := cfg.pfx ++ "-item".toList

/-- The beginning of a filter tag. -/
def tagStart (cfg : Config) : Str := cfg.pfx ++ "-f-".toList

/-- The tag of the button that shows everything. -/
def tagAll (cfg : Config) : Str := cfg.pfx ++ "-f-all".toList

/-! ## `mainLoop` -/

/-- Lines 183-192 of `mainLoop`, the scan of the active buttons: for a
button whose `classList` has the property `activeClass`, the call
`getClassStaringWith(start)` without its second argument throws a
`TypeError` (`classes` is `undefined`) before anything is pushed; for every
other button nothing happens. The result tells whether the scan throws. -/
def scanThrows (host : Host) (cfg : Config) (elements : List Str) : Bool :=
  let primaryButtons := getElementsByClass (btnPriClass cfg) elements
  let secondaryButtons := getElementsByClass (btnSecClass cfg) elements
  let activePrimaryButtons := getElementsByClass cfg.activeClass primaryButtons
  let activeSecondaryButtons := getElementsByClass cfg.activeClass secondaryButtons
  activePrimaryButtons.any (fun element => host.hasProperty cfg.activeClass (classList element)) ||
  activeSecondaryButtons.any (fun element => host.hasProperty cfg.activeClass (classList element))

/-- Lines 198-241 of `mainLoop`, "Build filter list": the two arrays after
the click on a button with the filter tag `btnFilter`. -/
def buildFilters (cfg : Config) (btnType : Lane) (btnFilter : Str)
    (activePrimaryFilters activeSecondaryFilters : List Str) : List Str × List Str :=
  let btnAll : Bool := btnFilter = tagAll cfg
  if btnAll then
    match btnType with
    | Lane.primary => ([], activeSecondaryFilters)
    | Lane.secondary => (activePrimaryFilters, [])
  else
    match btnType with
    | Lane.primary =>
      if cfg.toggle then
        if activePrimaryFilters.contains btnFilter then
          (spliceLast activePrimaryFilters btnFilter, activeSecondaryFilters)
        else
          let cleared := if !cfg.multiselect then [] else activePrimaryFilters
          (cleared ++ [btnFilter], activeSecondaryFilters)
      else
        let cleared := if !cfg.multiselect then [] else activePrimaryFilters
        if !cleared.contains btnFilter then (cleared ++ [btnFilter], activeSecondaryFilters)
        else (cleared, activeSecondaryFilters)
    | Lane.secondary =>
      if cfg.toggle then
        if activeSecondaryFilters.contains btnFilter then
          (activePrimaryFilters, sortPop activeSecondaryFilters btnFilter)
        else
          let cleared := if !cfg.multiselect then [] else activeSecondaryFilters
          (activePrimaryFilters, cleared ++ [btnFilter])
      else
        let cleared := if !cfg.multiselect then [] else activeSecondaryFilters
        if !cleared.contains btnFilter then (activePrimaryFilters, cleared ++ [btnFilter])
        else (activePrimaryFilters, cleared)

/-- The body of `primaryButtons.forEach` (lines 245-261) and of
`secondaryButtons.forEach` (lines 262-278) on one button, `active` being the
array of the button's lane: the new class attribute. The variable `classes`
is a string, so `classes.includes(j)` is `String.prototype.includes`. -/
def updateButton (cfg : Config) (active : List Str) (i : Str) : Str :=
  let i1 := removeClass i cfg.activeClass
  let i2 := if cfg.fade then addClass i1 cfg.fadeClass else i1
  if active.length = 0 then removeClass i2 cfg.fadeClass
  else
    let classes := getClassStaringWith (tagStart cfg) (classList i2)
    active.foldl
      (fun el j =>
        if strIncludes classes j then removeClass (addClass el cfg.activeClass) cfg.fadeClass
        else el)
      i2

/-- The method `classList.forEach(f)`, which is `Array.prototype.forEach`:
the length is read once, every index below it is visited in turn, and an
index the list no longer has when its turn comes is skipped. `f` maps a
token and the class attribute to the new class attribute. -/
def forEachToken (f : Str → Str → Str) (className : Str) : Str :=
  (List.range (classList className).length).foldl
    (fun cur k =>
      match (classList cur).get? k with
      | some cls => f cls cur
      | none => cur)
    className

/-- Lines 283-293 on one item: the nested loops over its `classList`. -/
def showItem (cfg : Config) (activePrimaryFilters activeSecondaryFilters : List Str)
    (item : Str) : Str :=
  let primaryFilterAll : Bool := activePrimaryFilters.length = 0
  let secondaryFilterAll : Bool := activeSecondaryFilters.length = 0
  forEachToken
    (fun cls1 cur =>
      if activePrimaryFilters.contains cls1 || primaryFilterAll then
        forEachToken
          (fun cls2 cur2 =>
            if activeSecondaryFilters.contains cls2 || secondaryFilterAll then
              removeClass cur2 cfg.hiddenClass
            else cur2)
          cur
      else cur)
    item

/-- Lines 280-293 on one item: `hiddenClass` is added, then the nested
loops remove it again where both lanes admit the item. -/
def updateItem (cfg : Config) (activePrimaryFilters activeSecondaryFilters : List Str)
    (item : Str) : Str :=
  showItem cfg activePrimaryFilters activeSecondaryFilters (addClass item cfg.hiddenClass)

/-- Lines 245-293 on one element of the group. The arrays `primaryButtons`,
`secondaryButtons` and `items` are taken from the class attributes at the
beginning of `mainLoop`; each loop changes the elements of its array one by
one and reads no other element, so the passes are followed element by
element: the primary pass, the secondary pass, the two item passes. -/
def renderElement (cfg : Config) (activePrimaryFilters activeSecondaryFilters : List Str)
    (element : Str) : Str :=
  let isPrimary := (splitOn isRegexSpace element).contains (btnPriClass cfg)
  let isSecondary := (splitOn isRegexSpace element).contains (btnSecClass cfg)
  let isItem := (splitOn isRegexSpace element).contains (itemClass cfg)
  let e1 := if isPrimary then updateButton cfg activePrimaryFilters element else element
  let e2 := if isSecondary then updateButton cfg activeSecondaryFilters e1 else e1
  if isItem then updateItem cfg activePrimaryFilters activeSecondaryFilters e2 else e2

/-- The function `mainLoop(e, btnType)`: the state after the click, `none`
when the scan of the active buttons throws (the state is then as before). -/
def mainLoop (host : Host) (cfg : Config) (st : State) (e : Event) (btnType : Lane) :
    Option State :=
  if scanThrows host cfg st.elements then none
  else
    let btnFilter := getClassStaringWith (tagStart cfg) (classList e.currentTarget)
    let filters := buildFilters cfg btnType btnFilter
      st.activePrimaryFilters st.activeSecondaryFilters
    some
      { elements := st.elements.map (renderElement cfg filters.1 filters.2)
        activePrimaryFilters := filters.1
        activeSecondaryFilters := filters.2 }

/-- The function `clickHandler(btnType)(e)`: the state after the event. -/
def clickHandler (host : Host) (cfg : Config) (btnType : Lane) (st : State) (e : Event) :
    Option State :=
  match cfg.btnFn with
  | some btnFn => if btnFn e then mainLoop host cfg st e btnType else some st
  | none => mainLoop host cfg st e btnType

/-- The state of a freshly constructed filter over the elements of the
group: both arrays are empty. -/
def initialState (elements : List Str) : State :=
  { elements := elements, activePrimaryFilters := [], activeSecondaryFilters := [] }

/-! ## Sequences of clicks -/

/-- The array of a lane. -/
def activeOf (btnType : Lane) (st : State) : List Str :=
  match btnType with
  | Lane.primary => st.activePrimaryFilters
  | Lane.secondary => st.activeSecondaryFilters

/-- The other lane. -/
def otherLane : Lane → Lane
  | Lane.primary => Lane.secondary
  | Lane.secondary => Lane.primary

/-- The filter tag `mainLoop` reads from the clicked button. -/
def btnFilterOf (cfg : Config) (e : Event) : Str :=
  getClassStaringWith (tagStart cfg) (classList e.currentTarget)

/-- Calls of `mainLoop` one after the other in one lane, each of which has
to return. -/
def mainLoopSeq (host : Host) (cfg : Config) (btnType : Lane) :
    State → List Event → Option State
  | st, [] => some st
  | st, e :: rest =>
    match mainLoop host cfg st e btnType with
    | some st1 => mainLoopSeq host cfg btnType st1 rest
    | none => none

/-- One click event as the page sees it: the listener of the lane runs; an
exception thrown by the listener leaves the state as it was (the scan of
`mainLoop` throws before any assignment). -/
def clickStep (host : Host) (cfg : Config) (st : State) (click : Event × Lane) : State :=
  (clickHandler host cfg click.2 st click.1).getD st

/-- The state after a sequence of click events. -/
def runClicks (host : Host) (cfg : Config) (st : State) (clicks : List (Event × Lane)) : State :=
  clicks.foldl (clickStep host cfg) st

/-- A host in which `key in classList` holds for the members of
`DOMTokenList` and for the indices below the number of tokens. -/
def domHost : Host :=
  { hasProperty := fun key tokens =>
      (["length", "value", "item", "contains", "add", "remove", "toggle", "replace",
        "supports", "entries", "forEach", "keys", "values", "toString",
        "constructor"].map String.toList).contains key ||
      (key ≠ [] && key.all Char.isDigit && (key.length = 1 || key.head? ≠ some '0') &&
        decide (key.foldl (fun n c => 10 * n + (c.toNat - 48)) 0 < tokens.length)) }

/-- The configuration of `new SimpleItemFilter(group)` with the options
`multiselect`, `fade` and `toggle`, everything else by default. -/
def defaultConfig (multiselect fade toggle : Bool) : Config :=
  { pfx := "sf".toList
    activeClass := "sf-active".toList
    hiddenClass := "sf-hidden".toList
    multiselect := multiselect
    fade := fade
    fadeClass := "sf-fade".toList
    toggle := toggle
    btnFn := none }

/-- A click event on an element with the class attribute `cls`. -/
def clickOn (cls : String) : Event :=
  { currentTarget := cls.toList, target := cls.toList }

/-- The elements of the group `demo`: the primary buttons `red`, `blue` and
`all`, a secondary button `big`, and two items. -/
def demoElements : List Str :=
  ["sf-g-demo sf-btn-primary sf-f-red", "sf-g-demo sf-btn-primary sf-f-blue",
   "sf-g-demo sf-btn-primary sf-f-all", "sf-g-demo sf-btn-secondary sf-f-big",
   "sf-g-demo sf-item sf-f-red", "sf-g-demo sf-item sf-f-blue sf-f-big"].map String.toList

/-- The group `demo` with `red` active in the primary lane and `big` in
the secondary lane. -/
def demoState : State :=
  { elements := demoElements
    activePrimaryFilters := ["sf-f-red".toList]
    activeSecondaryFilters := ["sf-f-big".toList] }

/-- A configuration with a `btnFn` that accepts an event only when the
element clicked is the element the listener is bound to. -/
def delegatedConfig : Config :=
  { pfx := "sf".toList
    activeClass := "sf-active".toList
    hiddenClass := "sf-hidden".toList
    multiselect := false
    fade := false
    fadeClass := "sf-fade".toList
    toggle := true
    btnFn := some (fun e => decide (e.target = e.currentTarget)) }

/-- The string is empty or begins with white space. -/
def atBoundary (sp : Char → Bool) (s : Str) : Prop :=
  s = [] ∨ startsWithSpace sp s = true

/-- A class name as the helpers take it: not empty and without white
space. -/
def IsToken (n : Str) : Prop :=
  n ≠ [] ∧ ∀ c ∈ n, isRegexSpace c = false

/-- The tokens of a class attribute between the white space of `\s`. -/
def tokens (s : Str) : List Str := tokensOf isRegexSpace s

/-- What a match `m` of the pattern for `n` in `s` has to do on the tokens:
there is no match only when `n` is no token of `s`, and replacing the match
by a blank takes the first `n` out of the tokens. -/
def Removes (n : Str) (m : Option (Nat × Nat)) (s : Str) : Prop :=
  match m with
  | none => n ∉ tokens s
  | some (i, l) =>
    n ∈ tokens s ∧ tokens (s.take i ++ ' ' :: s.drop (i + l)) = (tokens s).erase n

/-- A letter, a digit or a hyphen. -/
def isNameChar (c : Char) : Bool :=
  (48 ≤ c.toNat && c.toNat ≤ 57) || (65 ≤ c.toNat && c.toNat ≤ 90) ||
  (97 ≤ c.toNat && c.toNat ≤ 122) || c.toNat = 45

/-- A class name made of letters, digits and hyphens, and not empty. In the
pattern of `hasClass` such a name stands for itself. -/
def isClassName (n : Str) : Bool :=
  !n.isEmpty && n.all isNameChar

/-- The three display classes of the configuration are class names. -/
def displayNamesOk (cfg : Config) : Bool :=
  isClassName cfg.activeClass && isClassName cfg.hiddenClass && isClassName cfg.fadeClass

/-- The element is selected by `getElementsByClass(cssClass, elements)`. -/
def selectedBy (cssClass : Str) (element : Str) : Bool :=
  (splitOn isRegexSpace element).contains cssClass

/-- The button class of a lane. -/
def btnClass (cfg : Config) : Lane → Str
  | Lane.primary => btnPriClass cfg
  | Lane.secondary => btnSecClass cfg

/-- The group `demo` after a click on `red` with `fade` on: the button
`blue` is faded, the item `blue` is hidden. -/
def fadedState : State :=
  { elements :=
      ["sf-g-demo sf-btn-primary sf-f-red sf-active", "sf-g-demo sf-btn-primary sf-f-blue sf-fade",
       "sf-g-demo sf-btn-primary sf-f-all sf-fade", "sf-g-demo sf-btn-secondary sf-f-big",
       "sf-g-demo sf-item sf-f-red",
       "sf-g-demo sf-item sf-f-blue sf-f-big sf-hidden"].map String.toList
    activePrimaryFilters := ["sf-f-red".toList]
    activeSecondaryFilters := [] }

/-- The white space of the class attribute is ASCII white space: on such
an attribute the class `\s` and the DOM split at the same places. -/
def plainSpaces (s : Str) : Prop :=
  ∀ c ∈ s, isRegexSpace c = true → isTokenSpace c = true

/-- The test of the outer loop of lines 283-293 on a class of the item. -/
def admitsPrimary (activePrimaryFilters : List Str) (cls1 : Str) : Bool :=
  activePrimaryFilters.contains cls1 || decide (activePrimaryFilters.length = 0)

/-- The test of the inner loop of lines 283-293 on a class of the item. -/
def admitsSecondary (activeSecondaryFilters : List Str) (cls2 : Str) : Bool :=
  activeSecondaryFilters.contains cls2 || decide (activeSecondaryFilters.length = 0)

/-- A group with the primary buttons `red` and `reddish`, a primary button
without filter tag, and one item for each of the two tags. -/
def reddishElements : List Str :=
  ["sf-g-demo sf-btn-primary sf-f-red", "sf-g-demo sf-btn-primary sf-f-reddish",
   "sf-g-demo sf-btn-primary", "sf-g-demo sf-item sf-f-red",
   "sf-g-demo sf-item sf-f-reddish"].map String.toList

/-- The group `demo` of the scenario: the primary buttons `red`, `blue` and
`all`, the item `item1` with the class `sf-f-red` and the item `item2` with
the class `sf-f-blue`. -/
def scenarioElements : List Str :=
  ["sf-g-demo sf-btn-primary sf-f-red", "sf-g-demo sf-btn-primary sf-f-blue",
   "sf-g-demo sf-btn-primary sf-f-all", "sf-g-demo sf-item sf-f-red",
   "sf-g-demo sf-item sf-f-blue"].map String.toList

/-- The argument `options` of the constructor: `none` for a key that the
record does not have. `pfx` is the key `prefix`. -/
structure Options where
  pfx : Option Str
  activeClass : Option Str
  hiddenClass : Option Str
  multiselect : Option Bool
  fade : Option Bool
  fadeClass : Option Str
  toggle : Option Bool
  btnFn : Option (Event → Bool)

/-- The record `{}`. -/
def noOptions : Options :=
  { pfx := none, activeClass := none, hiddenClass := none, multiselect := none,
    fade := none, fadeClass := none, toggle := none, btnFn := none }

/-- Lines 61-103 of `new SimpleItemFilter(group, options)`: the
properties `Object.defineProperty` gives the new object, each
`('key' in options) ? options.key : default`; the three class names are
derived from `this.prefix`, the property defined first. -/
def newSimpleItemFilter (options : Options) : Config :=
  let pfx : Str :=
    match options.pfx with
    | some v => v
    | none => "sf".toList
  { pfx := pfx
    activeClass :=
      match options.activeClass with
      | some v => v
      | none => pfx ++ "-active".toList
    hiddenClass :=
      match options.hiddenClass with
      | some v => v
      | none => pfx ++ "-hidden".toList
    multiselect :=
      match options.multiselect with
      | some v => v
      | none => false
    fade :=
      match options.fade with
      | some v => v
      | none => false
    fadeClass :=
      match options.fadeClass with
      | some v => v
      | none => pfx ++ "-fade".toList
    toggle :=
      match options.toggle with
      | some v => v
      | none => true
    btnFn :=
      match options.btnFn with
      | some v => some v
      | none => none }

/-- The order on strings of the default comparison of
`Array.prototype.sort`: by UTF-16 code units. -/
def strLe (a b : Str) : Bool :=
  unitsLe (codeUnits a) (codeUnits b)

/-- A state with the secondary array `["b", "a", "c", "a"]` (group `demo`). -/
def repeatedState : State :=
  { elements := demoElements
    activePrimaryFilters := ["sf-f-b", "sf-f-a", "sf-f-c", "sf-f-a"].map String.toList
    activeSecondaryFilters := ["sf-f-b", "sf-f-a", "sf-f-c", "sf-f-a"].map String.toList }

/-- The class tokens of an element other than the three display classes, in
their order: the group, lane, item and filter-tag classes. -/
def structuralTokens (cfg : Config) (s : Str) : List Str :=
  (tokens s).filter
    (fun t => decide (t ≠ cfg.activeClass ∧ t ≠ cfg.fadeClass ∧ t ≠ cfg.hiddenClass))

/-- A group in which the button `blue` has the active class twice in its
class attribute. -/
def repeatedClassElements : List Str :=
  ["sf-g-demo sf-btn-primary sf-f-red",
   "sf-g-demo sf-btn-primary sf-f-blue sf-active sf-active"].map String.toList

/-! ## Basic facts -/

theorem mainLoop_of_scan (host : Host) (cfg : Config) (st : State) (e : Event) (btnType : Lane)
    (h : scanThrows host cfg st.elements = false) :
    mainLoop host cfg st e btnType = some
      { elements := st.elements.map (renderElement cfg
          (buildFilters cfg btnType (btnFilterOf cfg e)
            st.activePrimaryFilters st.activeSecondaryFilters).1
          (buildFilters cfg btnType (btnFilterOf cfg e)
            st.activePrimaryFilters st.activeSecondaryFilters).2)
        activePrimaryFilters := (buildFilters cfg btnType (btnFilterOf cfg e)
            st.activePrimaryFilters st.activeSecondaryFilters).1
        activeSecondaryFilters := (buildFilters cfg btnType (btnFilterOf cfg e)
            st.activePrimaryFilters st.activeSecondaryFilters).2 } := by
  simp [mainLoop, h, btnFilterOf]

theorem scanThrows_of_noProperty (host : Host) (cfg : Config) (elements : List Str)
    (h : ∀ tokens, host.hasProperty cfg.activeClass tokens = false) :
    scanThrows host cfg elements = false := by
  simp [scanThrows, h]

theorem mainLoop_none_iff (host : Host) (cfg : Config) (st : State) (e : Event)
    (btnType : Lane) :
    mainLoop host cfg st e btnType = none ↔ scanThrows host cfg st.elements = true := by
  unfold mainLoop
  by_cases h : scanThrows host cfg st.elements = true <;> simp [h]

theorem domHost_sf_active (tokens : List Str) :
    domHost.hasProperty "sf-active".toList tokens = false := by
  simp [domHost]

/-! ## The arrays after a click -/

theorem lastIndexOf_pair (a b : Str) (h : a ≠ b) : lastIndexOf [a, b] a = some 0 := by
  have hb : ¬ b = a := fun hh => h hh.symm
  simp [lastIndexOf, hb]

theorem spliceLast_pair (a b : Str) (h : a ≠ b) : spliceLast [a, b] a = [b] := by
  simp [spliceLast, lastIndexOf_pair a b h]

theorem sortPop_pair (a b : Str) (h : a ≠ b) : sortPop [a, b] a = [b] := by
  simp [sortPop, lastIndexOf_pair a b h, jsSort, List.insertionSort, List.orderedInsert,
    sortLe]

theorem length_jsSort (l : List (Option Str)) : (jsSort l).length = l.length := by
  simp [jsSort, List.length_insertionSort]

theorem length_spliceLast_le (a : List Str) (x : Str) : (spliceLast a x).length ≤ a.length := by
  unfold spliceLast
  split
  · exact List.length_eraseIdx_le _ _
  · simp

theorem length_sortPop_le (a : List Str) (x : Str) : (sortPop a x).length ≤ a.length := by
  unfold sortPop
  refine le_trans (List.length_filterMap_le _ _) ?_
  rw [List.length_dropLast, length_jsSort]
  split <;> simp

theorem buildFilters_all (cfg : Config) (btnType : Lane) (p q : List Str) :
    buildFilters cfg btnType (tagAll cfg) p q =
      match btnType with
      | Lane.primary => ([], q)
      | Lane.secondary => (p, []) := by
  simp [buildFilters]

/-- With `multiselect` off a click leaves at most one tag in either array
when there was at most one before. -/
theorem buildFilters_length_le_one (cfg : Config) (btnType : Lane) (t : Str) (p q : List Str)
    (hm : cfg.multiselect = false) (hp : p.length ≤ 1) (hq : q.length ≤ 1) :
    (buildFilters cfg btnType t p q).1.length ≤ 1 ∧
      (buildFilters cfg btnType t p q).2.length ≤ 1 := by
  have h1 := length_spliceLast_le p t
  have h2 := length_sortPop_le q t
  unfold buildFilters
  cases btnType <;> simp only [hm] <;> (repeat' split) <;> simp_all <;> omega

theorem activeOf_mainLoop (host : Host) (cfg : Config) (st st1 : State) (e : Event)
    (btnType lane : Lane) (h : mainLoop host cfg st e btnType = some st1) :
    activeOf lane st1 =
      match lane with
      | Lane.primary => (buildFilters cfg btnType (btnFilterOf cfg e)
          st.activePrimaryFilters st.activeSecondaryFilters).1
      | Lane.secondary => (buildFilters cfg btnType (btnFilterOf cfg e)
          st.activePrimaryFilters st.activeSecondaryFilters).2 := by
  unfold mainLoop at h
  split at h
  · exact absurd h (by simp)
  · simp only [Option.some.injEq] at h
    subst h
    cases lane <;> rfl

/-- The array of the clicked lane after a click, from the array before. -/
theorem buildFilters_lane (cfg : Config) (btnType : Lane) (t : Str) (p q : List Str) :
    (match btnType with
      | Lane.primary => (buildFilters cfg btnType t p q).1
      | Lane.secondary => (buildFilters cfg btnType t p q).2) =
    (let a := match btnType with
        | Lane.primary => p
        | Lane.secondary => q
     if t = tagAll cfg then []
     else if cfg.toggle then
       if a.contains t then
         (match btnType with
          | Lane.primary => spliceLast a t
          | Lane.secondary => sortPop a t)
       else (if !cfg.multiselect then [] else a) ++ [t]
     else if !(if !cfg.multiselect then [] else a).contains t then
       (if !cfg.multiselect then [] else a) ++ [t]
     else (if !cfg.multiselect then [] else a)) := by
  unfold buildFilters
  cases btnType <;> simp only [] <;> (repeat' split) <;> simp_all

/-- The array of the lane that was not clicked stays as it is. -/
theorem buildFilters_other (cfg : Config) (btnType : Lane) (t : Str) (p q : List Str) :
    (match btnType with
      | Lane.primary => (buildFilters cfg btnType t p q).2
      | Lane.secondary => (buildFilters cfg btnType t p q).1) =
    (match btnType with
      | Lane.primary => q
      | Lane.secondary => p) := by
  unfold buildFilters
  cases btnType <;> simp only [] <;> (repeat' split) <;> simp_all

/-- The clicked lane after a call of `mainLoop` that returns. -/
theorem activeOf_click (host : Host) (cfg : Config) (st st1 : State) (e : Event)
    (btnType : Lane) (h : mainLoop host cfg st e btnType = some st1) :
    activeOf btnType st1 =
      (if btnFilterOf cfg e = tagAll cfg then []
       else if cfg.toggle then
         if (activeOf btnType st).contains (btnFilterOf cfg e) then
           (match btnType with
            | Lane.primary => spliceLast (activeOf btnType st) (btnFilterOf cfg e)
            | Lane.secondary => sortPop (activeOf btnType st) (btnFilterOf cfg e))
         else (if !cfg.multiselect then [] else activeOf btnType st) ++ [btnFilterOf cfg e]
       else if !(if !cfg.multiselect then [] else activeOf btnType st).contains
             (btnFilterOf cfg e) then
         (if !cfg.multiselect then [] else activeOf btnType st) ++ [btnFilterOf cfg e]
       else (if !cfg.multiselect then [] else activeOf btnType st)) := by
  rw [activeOf_mainLoop host cfg st st1 e btnType btnType h]
  have := buildFilters_lane cfg btnType (btnFilterOf cfg e)
    st.activePrimaryFilters st.activeSecondaryFilters
  cases btnType <;> simpa [activeOf] using this

/-- The other lane after a call of `mainLoop` that returns. -/
theorem activeOf_other (host : Host) (cfg : Config) (st st1 : State) (e : Event)
    (btnType : Lane) (h : mainLoop host cfg st e btnType = some st1) :
    activeOf (otherLane btnType) st1 = activeOf (otherLane btnType) st := by
  rw [activeOf_mainLoop host cfg st st1 e btnType (otherLane btnType) h]
  have := buildFilters_other cfg btnType (btnFilterOf cfg e)
    st.activePrimaryFilters st.activeSecondaryFilters
  cases btnType <;> simpa [activeOf, otherLane] using this

theorem mainLoop_isSome (host : Host) (cfg : Config) (st : State) (e : Event) (btnType : Lane)
    (h : scanThrows host cfg st.elements = false) :
    ∃ st1, mainLoop host cfg st e btnType = some st1 :=
  ⟨_, mainLoop_of_scan host cfg st e btnType h⟩

theorem clickStep_length_le_one (host : Host) (cfg : Config) (st : State) (click : Event × Lane)
    (hm : cfg.multiselect = false) (hp : st.activePrimaryFilters.length ≤ 1)
    (hq : st.activeSecondaryFilters.length ≤ 1) :
    (clickStep host cfg st click).activePrimaryFilters.length ≤ 1 ∧
      (clickStep host cfg st click).activeSecondaryFilters.length ≤ 1 := by
  have key : ∀ r : Option State, (r = some st ∨ r = mainLoop host cfg st click.1 click.2) →
      (r.getD st).activePrimaryFilters.length ≤ 1 ∧
        (r.getD st).activeSecondaryFilters.length ≤ 1 := by
    intro r hr
    rcases hr with hr | hr
    · subst hr
      exact ⟨hp, hq⟩
    · subst hr
      by_cases hs : scanThrows host cfg st.elements = true
      · rw [(mainLoop_none_iff host cfg st click.1 click.2).2 hs]
        exact ⟨hp, hq⟩
      · rw [mainLoop_of_scan host cfg st click.1 click.2 (by simpa using hs)]
        exact buildFilters_length_le_one cfg click.2 _ _ _ hm hp hq
  apply key
  unfold clickHandler
  split
  · split
    · exact Or.inr rfl
    · exact Or.inl rfl
  · exact Or.inr rfl

theorem runClicks_length_le_one (host : Host) (cfg : Config) (clicks : List (Event × Lane))
    (hm : cfg.multiselect = false) (st : State) (hp : st.activePrimaryFilters.length ≤ 1)
    (hq : st.activeSecondaryFilters.length ≤ 1) :
    (runClicks host cfg st clicks).activePrimaryFilters.length ≤ 1 ∧
      (runClicks host cfg st clicks).activeSecondaryFilters.length ≤ 1 := by
  induction clicks generalizing st with
  | nil => exact ⟨hp, hq⟩
  | cons c rest ih =>
    have h := clickStep_length_le_one host cfg st c hm hp hq
    exact ih (clickStep host cfg st c) h.1 h.2

/-! ## Tokens of a class attribute -/

theorem splitOn_ne_nil (sp : Char → Bool) (s : Str) : splitOn sp s ≠ [] := by
  cases s with
  | nil => simp [splitOn]
  | cons c rest =>
    unfold splitOn
    split
    · simp
    · split
      · split <;> simp
      · simp

theorem tokensOf_cons_space (sp : Char → Bool) (c : Char) (s : Str) (hc : sp c = true) :
    tokensOf sp (c :: s) = tokensOf sp s := by
  unfold tokensOf
  rw [splitOn]
  split
  · rename_i h
    exact absurd h (splitOn_ne_nil sp s)
  · rename_i t ts h
    rw [h]
    by_cases hs : startsWithSpace sp s = true <;> simp [hc, hs]

theorem splitOn_of_startsWithSpace (sp : Char → Bool) (s : Str)
    (h : startsWithSpace sp s = true) : ∃ ts, splitOn sp s = [] :: ts := by
  induction s with
  | nil => simp [startsWithSpace] at h
  | cons c rest ih =>
    have hc : sp c = true := by simpa [startsWithSpace] using h
    rw [splitOn]
    split
    · rename_i h0
      exact absurd h0 (splitOn_ne_nil sp rest)
    · rename_i t ts h0
      by_cases hs : startsWithSpace sp rest = true
      · obtain ⟨ts1, h1⟩ := ih hs
        rw [h1] at h0
        simp only [List.cons.injEq] at h0
        obtain ⟨rfl, rfl⟩ := h0
        exact ⟨ts1, by simp [hc, hs]⟩
      · exact ⟨t :: ts, by simp [hc, hs]⟩

theorem splitOn_token_append (sp : Char → Bool) (t s1 h : Str) (r : List Str)
    (ht : ∀ c ∈ t, sp c = false) (hs : splitOn sp s1 = h :: r) :
    splitOn sp (t ++ s1) = (t ++ h) :: r := by
  induction t with
  | nil => simpa using hs
  | cons c t ih =>
    have hc : sp c = false := ht c (List.mem_cons_self _ _)
    have := ih (fun d hd => ht d (List.mem_cons_of_mem _ hd))
    rw [List.cons_append, splitOn, this]
    simp [hc]

theorem tokensOf_token_append (sp : Char → Bool) (t s1 : Str) (hne : t ≠ [])
    (ht : ∀ c ∈ t, sp c = false) (hb : atBoundary sp s1) :
    tokensOf sp (t ++ s1) = t :: tokensOf sp s1 := by
  have hs : ∃ ts, splitOn sp s1 = [] :: ts := by
    rcases hb with hb | hb
    · subst hb
      exact ⟨[], by simp [splitOn]⟩
    · exact splitOn_of_startsWithSpace sp s1 hb
  obtain ⟨ts, hts⟩ := hs
  unfold tokensOf
  rw [splitOn_token_append sp t s1 [] ts ht hts, hts]
  simp [hne]

theorem tokensOf_nil (sp : Char → Bool) : tokensOf sp [] = [] := by
  simp [tokensOf, splitOn]

theorem str_decompose (sp : Char → Bool) (s : Str) :
    s = [] ∨ (∃ c r, s = c :: r ∧ sp c = true) ∨
      (∃ t s1, s = t ++ s1 ∧ t ≠ [] ∧ (∀ c ∈ t, sp c = false) ∧ atBoundary sp s1) := by
  induction s with
  | nil => exact Or.inl rfl
  | cons c rest ih =>
    by_cases hc : sp c = true
    · exact Or.inr (Or.inl ⟨c, rest, rfl, hc⟩)
    · have hc1 : sp c = false := by simpa using hc
      refine Or.inr (Or.inr ?_)
      rcases ih with h | ⟨d, r, h, hd⟩ | ⟨t, s1, h, _, ht, hb⟩
      · subst h
        exact ⟨[c], [], rfl, by simp, by simpa using hc1, Or.inl rfl⟩
      · subst h
        exact ⟨[c], d :: r, rfl, by simp, by simpa using hc1,
          Or.inr (by simpa [startsWithSpace] using hd)⟩
      · subst h
        refine ⟨c :: t, s1, rfl, by simp, ?_, hb⟩
        intro d hd
        rcases List.mem_cons.1 hd with rfl | hd
        · exact hc1
        · exact ht d hd

/-- Induction over a class attribute, one white-space character or one whole
token at a time. -/
theorem str_induction (sp : Char → Bool) (P : Str → Prop) (hnil : P [])
    (hspace : ∀ c r, sp c = true → P r → P (c :: r))
    (htoken : ∀ t s1, t ≠ [] → (∀ c ∈ t, sp c = false) → atBoundary sp s1 → P s1 →
      P (t ++ s1)) :
    ∀ s, P s := by
  have key : ∀ n (s : Str), s.length = n → P s := by
    intro n
    induction n using Nat.strong_induction_on with
    | _ n ih =>
      intro s hn
      rcases str_decompose sp s with h | ⟨c, r, h, hc⟩ | ⟨t, s1, h, hne, ht, hb⟩
      · subst h
        exact hnil
      · subst h
        exact hspace c r hc (ih r.length (by simp [← hn]) r rfl)
      · subst h
        refine htoken t s1 hne ht hb (ih s1.length ?_ s1 rfl)
        have : 0 < t.length := List.length_pos.2 hne
        simp [← hn]
        omega
  exact fun s => key s.length s rfl

/-! ## The pattern of `hasClass` on tokens -/

theorem matchTail_nil_left (s : Str) :
    matchTail [] s = match s with
      | [] => some 0
      | c :: _ => if isRegexSpace c then some 1 else none := by
  cases s <;> simp [matchTail]

theorem matchTail_cons_nil (d : Char) (n : Str) : matchTail (d :: n) [] = none := by
  simp [matchTail]

theorem matchTail_cons_cons (d c : Char) (n r : Str) :
    matchTail (d :: n) (c :: r) = if d = c then (matchTail n r).map (· + 1) else none := by
  by_cases h : d = c
  · subst h
    simp only [matchTail, List.isPrefixOf, beq_self_eq_true, Bool.true_and, List.length_cons,
      List.drop_succ_cons, if_true]
    by_cases hp : n.isPrefixOf r = true
    · simp only [hp, if_true]
      cases List.drop n.length r with
      | nil => simp
      | cons x xs => by_cases hx : isRegexSpace x = true <;> simp [hx]
    · simp [hp]
  · simp [matchTail, List.isPrefixOf, h]

theorem matchTail_token (n t s1 : Str) (hn : ∀ c ∈ n, isRegexSpace c = false)
    (ht : ∀ c ∈ t, isRegexSpace c = false) (hb : atBoundary isRegexSpace s1) :
    matchTail n (t ++ s1) =
      if n = t then some (n.length + (if s1 = [] then 0 else 1)) else none := by
  induction t generalizing n with
  | nil =>
    cases n with
    | nil =>
      rw [matchTail_nil_left]
      rcases hb with hb | hb
      · subst hb
        simp
      · cases s1 with
        | nil => simp
        | cons c r =>
          have : isRegexSpace c = true := by simpa [startsWithSpace] using hb
          simp [this]
    | cons d n =>
      cases s1 with
      | nil => simp [matchTail_cons_nil]
      | cons c r =>
        have hc : isRegexSpace c = true := by
          rcases hb with hb | hb
          · simp at hb
          · simpa [startsWithSpace] using hb
        have hd : isRegexSpace d = false := hn d (List.mem_cons_self _ _)
        have hdc : d ≠ c := by
          intro h
          rw [h, hc] at hd
          exact absurd hd (by simp)
        simp [matchTail_cons_cons, hdc]
  | cons c t ih =>
    have hc : isRegexSpace c = false := ht c (List.mem_cons_self _ _)
    cases n with
    | nil => simp [matchTail_nil_left, hc]
    | cons d n =>
      rw [List.cons_append, matchTail_cons_cons]
      by_cases hdc : d = c
      · subst hdc
        rw [ih n (fun x hx => hn x (List.mem_cons_of_mem _ hx))
          (fun x hx => ht x (List.mem_cons_of_mem _ hx))]
        by_cases hnt : n = t
        · subst hnt
          simp
          omega
        · simp [hnt]
      · simp [hdc]

theorem findMatch_false_nil (n : Str) : findMatch n false [] = none := by
  simp [findMatch, matchHere, matchAfterSpace, matchOr]

theorem findMatch_false_space (n : Str) (c : Char) (r : Str) (hc : isRegexSpace c = true) :
    findMatch n false (c :: r) =
      match matchTail n r with
      | some l => some (0, l + 1)
      | none => (findMatch n false r).map (fun p => (p.1 + 1, p.2)) := by
  cases h : matchTail n r <;> simp [findMatch, matchHere, matchAfterSpace, matchOr, hc, h]

theorem findMatch_false_nonspace (n : Str) (c : Char) (r : Str)
    (hc : isRegexSpace c = false) :
    findMatch n false (c :: r) = (findMatch n false r).map (fun p => (p.1 + 1, p.2)) := by
  simp [findMatch, matchHere, matchAfterSpace, matchOr, hc]

theorem findMatch_false_token (n t s1 : Str) (ht : ∀ c ∈ t, isRegexSpace c = false) :
    findMatch n false (t ++ s1) =
      (findMatch n false s1).map (fun p => (p.1 + t.length, p.2)) := by
  induction t with
  | nil => simp
  | cons c t ih =>
    rw [List.cons_append, findMatch_false_nonspace n c _ (ht c (List.mem_cons_self _ _)),
      ih (fun x hx => ht x (List.mem_cons_of_mem _ hx))]
    cases findMatch n false s1 <;> simp
    omega

theorem matchTail_space (n : Str) (c : Char) (r : Str) (hn : IsToken n)
    (hc : isRegexSpace c = true) : matchTail n (c :: r) = none := by
  have h := matchTail_token n [] (c :: r) hn.2 (by simp)
    (Or.inr (by simpa [startsWithSpace] using hc))
  simpa [hn.1] using h

theorem findMatch_true_nil (n : Str) (hn : IsToken n) : findMatch n true [] = none := by
  have h := matchTail_token n [] [] hn.2 (by simp) (Or.inl rfl)
  simp only [List.append_nil, hn.1, if_false] at h
  simp [findMatch, matchHere, matchAfterSpace, matchOr, h]

theorem findMatch_true_space (n : Str) (c : Char) (r : Str) (hn : IsToken n)
    (hc : isRegexSpace c = true) :
    findMatch n true (c :: r) = findMatch n false (c :: r) := by
  have h := matchTail_space n c r hn hc
  cases h1 : matchTail n r <;> simp [findMatch, matchHere, matchAfterSpace, matchOr, hc, h, h1]

theorem findMatch_true_token (n t s1 : Str) (hn : IsToken n) (hne : t ≠ [])
    (ht : ∀ c ∈ t, isRegexSpace c = false) (hb : atBoundary isRegexSpace s1) :
    findMatch n true (t ++ s1) =
      if n = t then some (0, n.length + (if s1 = [] then 0 else 1))
      else (findMatch n false s1).map (fun p => (p.1 + t.length, p.2)) := by
  have hm := matchTail_token n t s1 hn.2 ht hb
  have hf := findMatch_false_token n t s1 ht
  cases t with
  | nil => exact absurd rfl hne
  | cons c t =>
    have hc : isRegexSpace c = false := ht c (List.mem_cons_self _ _)
    rw [List.cons_append] at hm hf ⊢
    rw [findMatch_false_nonspace n c _ hc] at hf
    by_cases hnt : n = c :: t
    · simp only [hnt, if_true] at hm ⊢
      simp [findMatch, matchHere, matchAfterSpace, matchOr, hc, hm]
    · simp only [hnt, if_false] at hm ⊢
      simp only [findMatch, matchHere, matchAfterSpace, matchOr, hc, hm]
      simpa using hf

theorem isRegexSpace_blank : isRegexSpace ' ' = true := by decide

theorem tokens_nil : tokens [] = [] := tokensOf_nil isRegexSpace

theorem tokens_cons_space (c : Char) (s : Str) (hc : isRegexSpace c = true) :
    tokens (c :: s) = tokens s := tokensOf_cons_space isRegexSpace c s hc

theorem tokens_blank (s : Str) : tokens (' ' :: s) = tokens s :=
  tokens_cons_space ' ' s isRegexSpace_blank

theorem tokens_token_append (t s1 : Str) (hne : t ≠ [])
    (ht : ∀ c ∈ t, isRegexSpace c = false) (hb : atBoundary isRegexSpace s1) :
    tokens (t ++ s1) = t :: tokens s1 := tokensOf_token_append isRegexSpace t s1 hne ht hb

theorem tokens_after_token (t s1 : Str) (ht : ∀ c ∈ t, isRegexSpace c = false)
    (hb : atBoundary isRegexSpace s1) :
    tokens (t ++ s1) = if t = [] then tokens s1 else t :: tokens s1 := by
  by_cases h : t = []
  · subst h
    simp
  · simp [h, tokens_token_append t s1 h ht hb]

theorem atBoundary_cons (c : Char) (r : Str) (hc : isRegexSpace c = true) :
    atBoundary isRegexSpace (c :: r) := Or.inr (by simpa [startsWithSpace] using hc)

/-- Taking out `l` characters at `i` of a string that begins with white
space leaves a string that begins with white space. -/
theorem atBoundary_replaced (s : Str) (i l : Nat) (hs : atBoundary isRegexSpace s) :
    atBoundary isRegexSpace (s.take i ++ ' ' :: s.drop (i + l)) := by
  cases i with
  | zero => exact atBoundary_cons _ _ isRegexSpace_blank
  | succ i =>
    cases s with
    | nil => exact atBoundary_cons _ _ isRegexSpace_blank
    | cons c r =>
      rcases hs with hs | hs
      · simp at hs
      · exact Or.inr (by simpa [startsWithSpace] using hs)

theorem removes_after_token (n tw dw : Str) (htw : ∀ c ∈ tw, isRegexSpace c = false)
    (hb : atBoundary isRegexSpace dw) (hne : n ≠ tw)
    (h : Removes n (findMatch n false dw) dw) :
    Removes n ((findMatch n false dw).map (fun p => (p.1 + tw.length, p.2))) (tw ++ dw) := by
  cases hm : findMatch n false dw with
  | none =>
    rw [hm] at h
    simp only [Removes, Option.map_none'] at h ⊢
    rw [tokens_after_token tw dw htw hb]
    split
    · exact h
    · simp [hne, h]
  | some p =>
    obtain ⟨i, l⟩ := p
    rw [hm] at h
    simp only [Removes, Option.map_some'] at h ⊢
    have e1 : List.take (i + tw.length) (tw ++ dw) = tw ++ List.take i dw := by
      rw [Nat.add_comm, List.take_append]
    have e2 : List.drop (i + tw.length + l) (tw ++ dw) = List.drop (i + l) dw := by
      have : i + tw.length + l = tw.length + (i + l) := by omega
      rw [this, List.drop_append]
    rw [e1, e2, List.append_assoc,
      tokens_after_token tw _ htw (atBoundary_replaced dw i l hb), tokens_after_token tw dw htw hb]
    split
    · exact h
    · refine ⟨List.mem_cons_of_mem _ h.1, ?_⟩
      rw [h.2, List.erase_cons_tail]
      simpa using fun hh => hne hh.symm

theorem removes_space (n : Str) (c : Char) (r : Str) (m : Option (Nat × Nat))
    (hc : isRegexSpace c = true) (h : Removes n m r) :
    Removes n (m.map (fun p => (p.1 + 1, p.2))) (c :: r) := by
  cases m with
  | none => simpa [Removes, tokens_cons_space c r hc] using h
  | some p =>
    obtain ⟨i, l⟩ := p
    simp only [Removes, Option.map_some'] at h ⊢
    have e : i + 1 + l = (i + l) + 1 := by omega
    rw [e, List.take_succ_cons, List.drop_succ_cons, List.cons_append,
      tokens_cons_space c r hc, tokens_cons_space c _ hc]
    exact h

theorem tokens_drop_boundary (s1 : Str) (hb : atBoundary isRegexSpace s1) :
    tokens (List.drop (if s1 = [] then 0 else 1) s1) = tokens s1 := by
  cases s1 with
  | nil => simp
  | cons c r =>
    rcases hb with hb | hb
    · simp at hb
    · have hc : isRegexSpace c = true := by simpa [startsWithSpace] using hb
      simp [tokens_cons_space c r hc]

theorem removes_hit (n s1 : Str) (hn : IsToken n) (hb : atBoundary isRegexSpace s1) :
    Removes n (some (0, n.length + (if s1 = [] then 0 else 1))) (n ++ s1) := by
  simp only [Removes, List.take_zero, List.nil_append, Nat.zero_add]
  rw [tokens_token_append n s1 hn.1 hn.2 hb, List.drop_append, tokens_blank,
    tokens_drop_boundary s1 hb]
  simp

theorem removes_hit_space (n s1 : Str) (c : Char) (hn : IsToken n)
    (hc : isRegexSpace c = true) (hb : atBoundary isRegexSpace s1) :
    Removes n (some (0, n.length + (if s1 = [] then 0 else 1) + 1)) (c :: (n ++ s1)) := by
  have h := removes_hit n s1 hn hb
  simp only [Removes, List.take_zero, List.nil_append, Nat.zero_add] at h ⊢
  rw [List.drop_succ_cons, tokens_cons_space c _ hc]
  exact h

theorem split_token (r : Str) :
    ∃ tw dw, r = tw ++ dw ∧ (∀ c ∈ tw, isRegexSpace c = false) ∧
      atBoundary isRegexSpace dw := by
  rcases str_decompose isRegexSpace r with h | ⟨c, r1, h, hc⟩ | ⟨t, s1, h, _, ht, hb⟩
  · exact ⟨[], [], by simp [h], by simp, Or.inl rfl⟩
  · exact ⟨[], r, by simp, by simp, by rw [h]; exact atBoundary_cons c r1 hc⟩
  · exact ⟨t, s1, h, ht, hb⟩

theorem removes_false (n : Str) (hn : IsToken n) :
    ∀ s, atBoundary isRegexSpace s → Removes n (findMatch n false s) s := by
  have key : ∀ k (s : Str), s.length = k → atBoundary isRegexSpace s →
      Removes n (findMatch n false s) s := by
    intro k
    induction k using Nat.strong_induction_on with
    | _ k ih =>
      intro s hk hs
      cases s with
      | nil => simp [findMatch_false_nil, Removes, tokens_nil]
      | cons c r =>
        have hc : isRegexSpace c = true := by
          rcases hs with hs | hs
          · simp at hs
          · simpa [startsWithSpace] using hs
        obtain ⟨tw, dw, hr, htw, hdw⟩ := split_token r
        subst hr
        rw [findMatch_false_space n c _ hc, matchTail_token n tw dw hn.2 htw hdw]
        by_cases hnt : n = tw
        · subst hnt
          simpa using removes_hit_space n dw c hn hc hdw
        · simp only [hnt, if_false]
          rw [findMatch_false_token n tw dw htw]
          refine removes_space n c _ _ hc (removes_after_token n tw dw htw hdw hnt ?_)
          exact ih dw.length (by simp [← hk]; omega) dw rfl hdw
  exact fun s hs => key s.length s rfl hs

theorem removes_true (n : Str) (hn : IsToken n) (s : Str) :
    Removes n (findMatch n true s) s := by
  rcases str_decompose isRegexSpace s with h | ⟨c, r, h, hc⟩ | ⟨t, s1, h, hne, ht, hb⟩
  · subst h
    simp [findMatch_true_nil n hn, Removes, tokens_nil]
  · subst h
    rw [findMatch_true_space n c r hn hc]
    exact removes_false n hn _ (atBoundary_cons c r hc)
  · subst h
    rw [findMatch_true_token n t s1 hn hne ht hb]
    by_cases hnt : n = t
    · subst hnt
      simpa using removes_hit n s1 hn hb
    · simp only [hnt, if_false]
      exact removes_after_token n t s1 ht hb hnt (removes_false n hn s1 hb)

/-- For a class name without white space, `hasClass` is membership among the tokens. -/
theorem hasClass_iff (s n : Str) (hn : IsToken n) : hasClass s n = true ↔ n ∈ tokens s := by
  have h := removes_true n hn s
  unfold hasClass
  cases hm : findMatch n true s with
  | none =>
    rw [hm] at h
    simpa [Removes] using h
  | some p =>
    rw [hm] at h
    simpa [Removes] using h.1

theorem tokens_spaces (w : Str) (hw : ∀ c ∈ w, isRegexSpace c = true) : tokens w = [] := by
  induction w with
  | nil => exact tokens_nil
  | cons c w ih =>
    rw [tokens_cons_space c w (hw c (List.mem_cons_self _ _))]
    exact ih (fun d hd => hw d (List.mem_cons_of_mem _ hd))

theorem atBoundary_append (s1 x : Str) (hb : atBoundary isRegexSpace s1)
    (hx : atBoundary isRegexSpace x) : atBoundary isRegexSpace (s1 ++ x) := by
  cases s1 with
  | nil => simpa using hx
  | cons c r =>
    rcases hb with hb | hb
    · simp at hb
    · exact Or.inr (by simpa [startsWithSpace] using hb)

/-- Tokens of a class attribute followed by a string that begins at a token
boundary. -/
theorem tokens_append_boundary (x : Str) (hx : atBoundary isRegexSpace x) (s : Str) :
    tokens (s ++ x) = tokens s ++ tokens x := by
  induction s using str_induction isRegexSpace with
  | hnil => simp [tokens_nil]
  | hspace c r hc ih =>
    rw [List.cons_append, tokens_cons_space c _ hc, tokens_cons_space c r hc, ih]
  | htoken t s1 hne ht hb ih =>
    rw [List.append_assoc, tokens_token_append t _ hne ht (atBoundary_append s1 x hb hx),
      tokens_token_append t s1 hne ht hb, ih]
    simp

theorem tokens_append_spaces (s w : Str) (hw : ∀ c ∈ w, isRegexSpace c = true) :
    tokens (s ++ w) = tokens s := by
  have hx : atBoundary isRegexSpace w := by
    cases w with
    | nil => exact Or.inl rfl
    | cons c r => exact atBoundary_cons c r (hw c (List.mem_cons_self _ _))
  rw [tokens_append_boundary w hx s, tokens_spaces w hw]
  simp

theorem tokens_dropWhile (s : Str) : tokens (s.dropWhile isRegexSpace) = tokens s := by
  induction s with
  | nil => rfl
  | cons c r ih =>
    by_cases hc : isRegexSpace c = true
    · rw [List.dropWhile_cons_of_pos hc, ih, tokens_cons_space c r hc]
    · rw [List.dropWhile_cons_of_neg hc]

theorem tokens_rdrop (s : Str) :
    tokens ((s.reverse.dropWhile isRegexSpace).reverse) = tokens s := by
  have h := List.takeWhile_append_dropWhile isRegexSpace s.reverse
  have hs : s = (s.reverse.dropWhile isRegexSpace).reverse ++
      (s.reverse.takeWhile isRegexSpace).reverse := by
    rw [← List.reverse_append, h, List.reverse_reverse]
  have hw : ∀ c ∈ (s.reverse.takeWhile isRegexSpace).reverse, isRegexSpace c = true := by
    intro c hc
    exact List.mem_takeWhile_imp (List.mem_reverse.1 hc)
  conv_rhs => rw [hs]
  rw [tokens_append_spaces _ _ hw]

theorem tokens_trim (s : Str) : tokens (trim s) = tokens s := by
  unfold trim
  rw [tokens_rdrop, tokens_dropWhile]

/-- On the tokens, `removeClass` takes out the first occurrence of the name. -/
theorem tokens_removeClass (s n : Str) (hn : IsToken n) :
    tokens (removeClass s n) = (tokens s).erase n := by
  have h := removes_true n hn s
  unfold removeClass
  cases hm : findMatch n true s with
  | none =>
    rw [hm] at h
    simp only [Removes] at h
    simp [List.erase_of_not_mem h]
  | some p =>
    obtain ⟨i, l⟩ := p
    rw [hm] at h
    simp only [Removes] at h
    simp only []
    rw [tokens_trim, h.2]

theorem tokens_token (n : Str) (hn : IsToken n) : tokens n = [n] := by
  have h := tokens_token_append n [] hn.1 hn.2 (Or.inl rfl)
  simpa [tokens_nil] using h

/-- On the tokens, `addClass` appends the name when it is not there. -/
theorem tokens_addClass (s n : Str) (hn : IsToken n) :
    tokens (addClass s n) = if n ∈ tokens s then tokens s else tokens s ++ [n] := by
  unfold addClass
  by_cases h : hasClass s n = true
  · have hm := (hasClass_iff s n hn).1 h
    simp [h, hm]
  · have hm : n ∉ tokens s := fun hh => h ((hasClass_iff s n hn).2 hh)
    simp only [h, hm, if_false, Bool.not_false, if_true, Bool.false_eq_true, not_false_eq_true]
    by_cases hs : s = []
    · subst hs
      simp [tokens_nil, tokens_token n hn]
    · simp only [hs, ne_eq, not_false_eq_true, if_true, List.append_assoc]
      have hx : atBoundary isRegexSpace (" ".toList ++ n) :=
        atBoundary_cons ' ' n isRegexSpace_blank
      rw [tokens_append_boundary _ hx s]
      have : " ".toList ++ n = ' ' :: n := rfl
      rw [this, tokens_blank, tokens_token n hn]

theorem mem_spliceLast (a : List Str) (x t : Str) (h : t ∈ spliceLast a x) : t ∈ a := by
  unfold spliceLast at h
  split at h
  · exact (List.eraseIdx_sublist a _).subset h
  · exact (List.dropLast_sublist a).subset h

theorem mem_sortPop (a : List Str) (x t : Str) (h : t ∈ sortPop a x) : t ∈ a := by
  unfold sortPop at h
  simp only [List.mem_filterMap, id_eq, exists_eq_right] at h
  have h1 := (List.dropLast_sublist _).subset h
  have h2 : some t ∈ (match lastIndexOf a x with
      | some i => (a.map some).set i none
      | none => a.map some) := by
    unfold jsSort at h1
    exact (List.perm_insertionSort _ _).subset h1
  split at h2
  · rcases List.mem_or_eq_of_mem_set h2 with h3 | h3
    · simpa using h3
    · simp at h3
  · simpa using h2

/-- Every tag in an array after a click was in that array before or is the
tag of the clicked button. -/
theorem mem_buildFilters (cfg : Config) (btnType : Lane) (x t : Str) (p q : List Str) :
    (t ∈ (buildFilters cfg btnType x p q).1 → t ∈ p ∨ t = x) ∧
      (t ∈ (buildFilters cfg btnType x p q).2 → t ∈ q ∨ t = x) := by
  have h1 := mem_spliceLast p x t
  have h2 := mem_sortPop q x t
  unfold buildFilters
  cases btnType <;> simp only [] <;> (repeat' split) <;> simp_all

/-! ## Display classes -/

theorem isRegexSpace_of_isNameChar (c : Char) (h : isNameChar c = true) :
    isRegexSpace c = false := by
  simp only [isNameChar, Bool.or_eq_true, Bool.and_eq_true, decide_eq_true_eq] at h
  simp only [isRegexSpace, Bool.or_eq_false_iff, Bool.and_eq_false_iff, decide_eq_false_iff_not]
  omega

theorem isToken_of_isClassName (n : Str) (h : isClassName n = true) : IsToken n := by
  simp only [isClassName, Bool.and_eq_true, Bool.not_eq_true', List.all_eq_true] at h
  refine ⟨?_, fun c hc => isRegexSpace_of_isNameChar c (h.2 c hc)⟩
  intro hn
  subst hn
  simp at h

theorem nodup_removeClass (s n : Str) (hn : IsToken n) (h : (tokens s).Nodup) :
    (tokens (removeClass s n)).Nodup := by
  rw [tokens_removeClass s n hn]
  exact h.erase n

theorem nodup_addClass (s n : Str) (hn : IsToken n) (h : (tokens s).Nodup) :
    (tokens (addClass s n)).Nodup := by
  rw [tokens_addClass s n hn]
  split
  · exact h
  · rename_i hm
    exact List.Nodup.append h (List.nodup_singleton n) (by simpa using hm)

theorem not_mem_removeClass (s n : Str) (hn : IsToken n) (h : (tokens s).Nodup) :
    n ∉ tokens (removeClass s n) := by
  rw [tokens_removeClass s n hn, h.mem_erase_iff]
  simp

theorem mem_removeClass_of_ne (s n x : Str) (hn : IsToken n) (hx : x ≠ n) :
    x ∈ tokens (removeClass s n) ↔ x ∈ tokens s := by
  rw [tokens_removeClass s n hn]
  exact List.mem_erase_of_ne hx

theorem mem_addClass (s n x : Str) (hn : IsToken n) :
    x ∈ tokens (addClass s n) ↔ x ∈ tokens s ∨ x = n := by
  rw [tokens_addClass s n hn]
  split
  · rename_i hm
    constructor
    · exact Or.inl
    · rintro (h | h)
      · exact h
      · exact h ▸ hm
  · simp

theorem removeClass_of_not_mem (s n : Str) (hn : IsToken n) (h : n ∉ tokens s) :
    removeClass s n = s := by
  have hc : hasClass s n = false := by
    cases hh : hasClass s n
    · rfl
    · exact absurd ((hasClass_iff s n hn).1 hh) h
  unfold hasClass at hc
  unfold removeClass
  cases hm : findMatch n true s with
  | none => rfl
  | some p => simp [hm] at hc

/-- A property of the class attribute that every call of the loop body
keeps is kept by `classList.forEach`. -/
theorem forEachToken_invariant (I : Str → Prop) (f : Str → Str → Str)
    (hf : ∀ cls cur, I cur → I (f cls cur)) (s : Str) (hs : I s) :
    I (forEachToken f s) := by
  unfold forEachToken
  generalize (List.range (classList s).length) = ks
  induction ks generalizing s with
  | nil => exact hs
  | cons k ks ih =>
    rw [List.foldl_cons]
    apply ih
    cases (classList s).get? k with
    | none => exact hs
    | some cls => exact hf cls s hs

theorem isToken_display (cfg : Config) (h : displayNamesOk cfg = true) :
    IsToken cfg.activeClass ∧ IsToken cfg.hiddenClass ∧ IsToken cfg.fadeClass := by
  simp only [displayNamesOk, Bool.and_eq_true] at h
  exact ⟨isToken_of_isClassName _ h.1.1, isToken_of_isClassName _ h.1.2,
    isToken_of_isClassName _ h.2⟩

/-- A property that adding the active class and removing the fade class
keep is kept by the loop over the active filters. -/
theorem activeLoop_invariant (cfg : Config) (classes : Str) (I : Str → Prop)
    (hI : ∀ el, I el → I (removeClass (addClass el cfg.activeClass) cfg.fadeClass))
    (active : List Str) (i2 : Str) (h : I i2) :
    I (active.foldl
      (fun el j =>
        if strIncludes classes j then removeClass (addClass el cfg.activeClass) cfg.fadeClass
        else el)
      i2) := by
  induction active generalizing i2 with
  | nil => exact h
  | cons j js ih =>
    rw [List.foldl_cons]
    apply ih
    split
    · exact hI i2 h
    · exact h

theorem nodup_updateButton (cfg : Config) (active : List Str) (i : Str)
    (ha : IsToken cfg.activeClass) (hf : IsToken cfg.fadeClass) (h : (tokens i).Nodup) :
    (tokens (updateButton cfg active i)).Nodup := by
  have h1 : (tokens (removeClass i cfg.activeClass)).Nodup := nodup_removeClass _ _ ha h
  have h2 : (tokens (if cfg.fade then addClass (removeClass i cfg.activeClass) cfg.fadeClass
      else removeClass i cfg.activeClass)).Nodup := by
    split
    · exact nodup_addClass _ _ hf h1
    · exact h1
  unfold updateButton
  simp only []
  split
  · exact nodup_removeClass _ _ hf h2
  · exact activeLoop_invariant cfg _ (fun x => (tokens x).Nodup)
      (fun el hel => nodup_removeClass _ _ hf (nodup_addClass _ _ ha hel)) active _ h2

/-- In a lane without active filter the button pass leaves no fade class. -/
theorem updateButton_nil_no_fade (cfg : Config) (i : Str)
    (ha : IsToken cfg.activeClass) (hf : IsToken cfg.fadeClass) (h : (tokens i).Nodup) :
    cfg.fadeClass ∉ tokens (updateButton cfg [] i) := by
  have h1 : (tokens (removeClass i cfg.activeClass)).Nodup := nodup_removeClass _ _ ha h
  have h2 : (tokens (if cfg.fade then addClass (removeClass i cfg.activeClass) cfg.fadeClass
      else removeClass i cfg.activeClass)).Nodup := by
    split
    · exact nodup_addClass _ _ hf h1
    · exact h1
  unfold updateButton
  simp only [List.length_nil, if_true]
  exact not_mem_removeClass _ _ hf h2

theorem showItem_invariant (cfg : Config) (p q : List Str) (I : Str → Prop)
    (hI : ∀ cur, I cur → I (removeClass cur cfg.hiddenClass)) (s : Str) (hs : I s) :
    I (showItem cfg p q s) := by
  unfold showItem
  apply forEachToken_invariant I _ _ s hs
  intro cls1 cur hcur
  split
  · apply forEachToken_invariant I _ _ cur hcur
    intro cls2 cur2 hcur2
    split
    · exact hI cur2 hcur2
    · exact hcur2
  · exact hcur

theorem nodup_updateItem (cfg : Config) (p q : List Str) (s : Str)
    (hh : IsToken cfg.hiddenClass) (h : (tokens s).Nodup) :
    (tokens (updateItem cfg p q s)).Nodup := by
  unfold updateItem
  exact showItem_invariant cfg p q (fun x => (tokens x).Nodup)
    (fun cur hcur => nodup_removeClass _ _ hh hcur) _ (nodup_addClass _ _ hh h)

theorem not_mem_updateItem (cfg : Config) (p q : List Str) (s x : Str)
    (hh : IsToken cfg.hiddenClass) (hx : x ≠ cfg.hiddenClass) (h : x ∉ tokens s) :
    x ∉ tokens (updateItem cfg p q s) := by
  unfold updateItem
  refine showItem_invariant cfg p q (fun y => x ∉ tokens y) ?_ _ ?_
  · intro cur hcur
    show x ∉ tokens (removeClass cur cfg.hiddenClass)
    rwa [mem_removeClass_of_ne _ _ _ hh hx]
  · show x ∉ tokens (addClass s cfg.hiddenClass)
    rw [mem_addClass _ _ _ hh]
    simp [h, hx]

/-- The fade class on a rendered element that is a button of a lane without
active filter. -/
theorem renderElement_no_fade (cfg : Config) (p q : List Str) (lane : Lane) (el : Str)
    (hnames : displayNamesOk cfg = true) (hfh : cfg.fadeClass ≠ cfg.hiddenClass)
    (hbtn : selectedBy (btnClass cfg lane) el = true)
    (hone : lane = Lane.primary → selectedBy (btnSecClass cfg) el = false)
    (hnodup : (tokens el).Nodup)
    (hempty : (match lane with
      | Lane.primary => p
      | Lane.secondary => q) = []) :
    cfg.fadeClass ∉ tokens (renderElement cfg p q el) := by
  obtain ⟨ha, hh, hf⟩ := isToken_display cfg hnames
  have key : ∀ e2 : Str, cfg.fadeClass ∉ tokens e2 →
      cfg.fadeClass ∉ tokens (if (splitOn isRegexSpace el).contains (itemClass cfg) = true
        then updateItem cfg p q e2 else e2) := by
    intro e2 h2
    split
    · exact not_mem_updateItem cfg p q e2 _ hh hfh h2
    · exact h2
  unfold renderElement
  simp only []
  apply key
  cases lane with
  | primary =>
    simp only [] at hempty
    subst hempty
    have hs := hone rfl
    simp only [selectedBy, btnClass] at hs hbtn
    simp only [hs, hbtn, if_true, Bool.false_eq_true, if_false]
    exact updateButton_nil_no_fade cfg el ha hf hnodup
  | secondary =>
    simp only [] at hempty
    subst hempty
    simp only [selectedBy, btnClass] at hbtn
    simp only [hbtn, if_true]
    apply updateButton_nil_no_fade cfg _ ha hf
    split
    · exact nodup_updateButton cfg p el ha hf hnodup
    · exact hnodup

/-- The class attribute of an element after a call of `mainLoop` that
returns. -/
theorem mainLoop_elements (host : Host) (cfg : Config) (st st1 : State) (e : Event)
    (btnType : Lane) (i : Nat) (el : Str) (h : mainLoop host cfg st e btnType = some st1)
    (hel : st.elements[i]? = some el) :
    st1.elements[i]? =
      some (renderElement cfg st1.activePrimaryFilters st1.activeSecondaryFilters el) := by
  unfold mainLoop at h
  split at h
  · exact absurd h (by simp)
  · simp only [Option.some.injEq] at h
    subst h
    simp only [List.getElem?_map, hel, Option.map_some']

/-! ## The token list of the DOM -/

theorem isRegexSpace_of_isTokenSpace (c : Char) (h : isTokenSpace c = true) :
    isRegexSpace c = true := by
  simp only [isTokenSpace, Bool.or_eq_true, decide_eq_true_eq] at h
  simp only [isRegexSpace, Bool.or_eq_true, Bool.and_eq_true, decide_eq_true_eq]
  omega

theorem splitOn_congr (sp sq : Char → Bool) (s : Str) (h : ∀ c ∈ s, sp c = sq c) :
    splitOn sp s = splitOn sq s := by
  induction s with
  | nil => rfl
  | cons c rest ih =>
    have hr := ih (fun d hd => h d (List.mem_cons_of_mem _ hd))
    have hc := h c (List.mem_cons_self _ _)
    have hs : startsWithSpace sp rest = startsWithSpace sq rest := by
      cases rest with
      | nil => rfl
      | cons d r => exact h d (by simp)
    rw [splitOn, splitOn, hr, hc, hs]

theorem tokensOf_isTokenSpace (s : Str) (h : plainSpaces s) :
    tokensOf isTokenSpace s = tokens s := by
  unfold tokens tokensOf
  rw [splitOn_congr isTokenSpace isRegexSpace s]
  intro c hc
  cases hr : isRegexSpace c with
  | true => exact h c hc hr
  | false =>
    cases ht : isTokenSpace c with
    | false => rfl
    | true => rw [isRegexSpace_of_isTokenSpace c ht] at hr; exact absurd hr (by simp)

theorem foldl_appendNew (l acc : List Str) (h : (acc ++ l).Nodup) :
    l.foldl appendNew acc = acc ++ l := by
  induction l generalizing acc with
  | nil => simp
  | cons x l ih =>
    have hx : x ∉ acc := by
      intro hm
      have := List.nodup_append.1 h
      exact this.2.2 hm (List.mem_cons_self _ _)
    rw [List.foldl_cons]
    have ha : appendNew acc x = acc ++ [x] := by
      simp [appendNew, hx]
    rw [ha, ih (acc ++ [x]) (by simpa using h)]
    simp

/-- Without a token twice and with ASCII white space only, `classList` is
the list of the tokens. -/
theorem classList_eq_tokens (s : Str) (hp : plainSpaces s) (hn : (tokens s).Nodup) :
    classList s = tokens s := by
  unfold classList
  rw [tokensOf_isTokenSpace s hp, foldl_appendNew _ [] (by simpa using hn)]
  simp

theorem mem_trim (s : Str) (c : Char) (h : c ∈ trim s) : c ∈ s := by
  unfold trim at h
  have h1 := List.mem_reverse.1 h
  have h2 := (List.dropWhile_sublist isRegexSpace).subset h1
  have h3 := List.mem_reverse.1 h2
  exact (List.dropWhile_sublist isRegexSpace).subset h3

theorem plainSpaces_removeClass (s n : Str) (h : plainSpaces s) :
    plainSpaces (removeClass s n) := by
  unfold removeClass
  split
  · rename_i i l _
    intro c hc hr
    have hc1 := mem_trim _ c hc
    rcases List.mem_append.1 hc1 with hc2 | hc2
    · exact h c (List.mem_of_mem_take hc2) hr
    · rcases List.mem_cons.1 hc2 with hc3 | hc3
      · subst hc3
        decide
      · exact h c (List.mem_of_mem_drop hc3) hr
  · exact h

theorem plainSpaces_addClass (s n : Str) (hn : IsToken n) (h : plainSpaces s) :
    plainSpaces (addClass s n) := by
  unfold addClass
  split
  · intro c hc hr
    rcases List.mem_append.1 hc with hc1 | hc1
    · rcases List.mem_append.1 hc1 with hc2 | hc2
      · exact h c hc2 hr
      · split at hc2
        · have : c = ' ' := by simpa using hc2
          subst this
          decide
        · simp at hc2
    · rw [hn.2 c hc1] at hr
      exact absurd hr (by simp)
  · exact h

/-- The loop `classList.forEach` with a body that applies `H` when the token
satisfies `p`: `H` is applied when some token satisfies `p`, provided a
second application changes nothing. -/
theorem forEachToken_cond (p : Str → Bool) (H : Str → Str) (s : Str)
    (hid : H (H s) = H s) :
    forEachToken (fun cls cur => if p cls then H cur else cur) s =
      if (classList s).any p then H s else s := by
  have key : ∀ k, k ≤ (classList s).length →
      (List.range k).foldl
        (fun cur k =>
          match (classList cur).get? k with
          | some cls => if p cls then H cur else cur
          | none => cur) s =
      if ((classList s).take k).any p then H s else s := by
    intro k
    induction k with
    | zero => simp
    | succ k ih =>
      intro hk
      have hlt : k < (classList s).length := by omega
      rw [List.range_succ, List.foldl_append, ih (by omega), List.take_succ]
      simp only [List.foldl_cons, List.foldl_nil, List.any_append]
      have hget : (classList s).get? k = some ((classList s)[k]) := by
        simp [List.getElem?_eq_getElem hlt]
      by_cases hany : ((classList s).take k).any p = true
      · simp only [hany, if_true, Bool.true_or]
        cases (classList (H s)).get? k with
        | none => rfl
        | some cls =>
          simp only []
          split
          · exact hid
          · rfl
      · simp only [hany, if_false, Bool.false_or, hget]
        simp [List.getElem?_eq_getElem hlt]
  have := key (classList s).length (le_refl _)
  rw [List.take_length] at this
  exact this

theorem removeClass_idem (s n : Str) (hn : IsToken n) (h : (tokens s).Nodup) :
    removeClass (removeClass s n) n = removeClass s n :=
  removeClass_of_not_mem _ n hn (not_mem_removeClass s n hn h)

/-- The inner loop of lines 283-293. -/
theorem innerLoop_eq (cfg : Config) (q : List Str) (cur : Str)
    (hh : IsToken cfg.hiddenClass) (hn : (tokens cur).Nodup) :
    forEachToken
      (fun cls2 cur2 =>
        if admitsSecondary q cls2 then removeClass cur2 cfg.hiddenClass else cur2) cur =
      if (classList cur).any (admitsSecondary q) then removeClass cur cfg.hiddenClass
      else cur :=
  forEachToken_cond (admitsSecondary q) (fun x => removeClass x cfg.hiddenClass) cur
    (removeClass_idem cur _ hh hn)

/-- The nested loops of lines 283-293 on an item without a token twice: the
hidden class is removed when one class passes the primary test and one class
passes the secondary test. -/
theorem showItem_eq (cfg : Config) (p q : List Str) (s : Str)
    (hh : IsToken cfg.hiddenClass) (hn : (tokens s).Nodup) :
    showItem cfg p q s =
      if (classList s).any (admitsPrimary p) && (classList s).any (admitsSecondary q)
      then removeClass s cfg.hiddenClass else s := by
  have hn1 : (tokens (removeClass s cfg.hiddenClass)).Nodup := nodup_removeClass _ _ hh hn
  have hidem := removeClass_idem s _ hh hn
  have houter := forEachToken_cond (admitsPrimary p)
    (fun cur => forEachToken
      (fun cls2 cur2 =>
        if admitsSecondary q cls2 then removeClass cur2 cfg.hiddenClass else cur2) cur) s
    (by
      simp only []
      rw [innerLoop_eq cfg q s hh hn]
      split
      · rw [innerLoop_eq cfg q _ hh hn1, hidem]
        simp
      · rw [innerLoop_eq cfg q s hh hn]
        simp_all)
  have hdef : showItem cfg p q s =
      forEachToken (fun cls cur => if admitsPrimary p cls then
        (fun cur => forEachToken
          (fun cls2 cur2 =>
            if admitsSecondary q cls2 then removeClass cur2 cfg.hiddenClass else cur2) cur) cur
        else cur) s := rfl
  rw [hdef, houter]
  simp only []
  rw [innerLoop_eq cfg q s hh hn]
  by_cases h1 : (classList s).any (admitsPrimary p) = true <;>
    by_cases h2 : (classList s).any (admitsSecondary q) = true <;> simp [h1, h2]

theorem plainSpaces_updateButton (cfg : Config) (active : List Str) (i : Str)
    (ha : IsToken cfg.activeClass) (hf : IsToken cfg.fadeClass) (h : plainSpaces i) :
    plainSpaces (updateButton cfg active i) := by
  have h1 : plainSpaces (removeClass i cfg.activeClass) := plainSpaces_removeClass _ _ h
  have h2 : plainSpaces (if cfg.fade then addClass (removeClass i cfg.activeClass) cfg.fadeClass
      else removeClass i cfg.activeClass) := by
    split
    · exact plainSpaces_addClass _ _ hf h1
    · exact h1
  unfold updateButton
  simp only []
  split
  · exact plainSpaces_removeClass _ _ h2
  · exact activeLoop_invariant cfg _ plainSpaces
      (fun el hel => plainSpaces_removeClass _ _ (plainSpaces_addClass _ _ ha hel)) active _ h2

theorem any_admits_iff (l a : List Str) (hl : l ≠ []) :
    (l.any (fun cls => a.contains cls || decide (a.length = 0)) = true) ↔
      (a = [] ∨ ∃ t ∈ l, t ∈ a) := by
  simp only [List.any_eq_true, Bool.or_eq_true, List.contains_iff_exists_mem_beq,
    decide_eq_true_eq, List.length_eq_zero, beq_iff_eq]
  constructor
  · rintro ⟨t, ht, h | h⟩
    · obtain ⟨x, hx, rfl⟩ := h
      exact Or.inr ⟨_, ht, hx⟩
    · exact Or.inl h
  · rintro (h | ⟨t, ht, hta⟩)
    · obtain ⟨x, hx⟩ := List.exists_mem_of_ne_nil l hl
      exact ⟨x, hx, Or.inr h⟩
    · exact ⟨t, ht, Or.inl ⟨t, hta, rfl⟩⟩

/-- Lines 280-293 on an item without a token twice: afterwards the item is
without the hidden class exactly when each lane is without filter or has one
of the classes of the item among its filters. -/
theorem updateItem_visible (cfg : Config) (p q : List Str) (s : Str)
    (hh : IsToken cfg.hiddenClass) (hn : (tokens s).Nodup) (hs : plainSpaces s)
    (hp : cfg.hiddenClass ∉ p) (hq : cfg.hiddenClass ∉ q) :
    hasClass (updateItem cfg p q s) cfg.hiddenClass = false ↔
      (p = [] ∨ ∃ t ∈ classList (updateItem cfg p q s), t ∈ p) ∧
      (q = [] ∨ ∃ t ∈ classList (updateItem cfg p q s), t ∈ q) := by
  have hn1 : (tokens (addClass s cfg.hiddenClass)).Nodup := nodup_addClass _ _ hh hn
  have hs1 : plainSpaces (addClass s cfg.hiddenClass) := plainSpaces_addClass _ _ hh hs
  have hmem : cfg.hiddenClass ∈ tokens (addClass s cfg.hiddenClass) := by
    rw [mem_addClass _ _ _ hh]
    exact Or.inr rfl
  have hne : tokens (addClass s cfg.hiddenClass) ≠ [] := List.ne_nil_of_mem hmem
  have hcl := classList_eq_tokens _ hs1 hn1
  have hshow := showItem_eq cfg p q _ hh hn1
  have hP := any_admits_iff (tokens (addClass s cfg.hiddenClass)) p hne
  have hQ := any_admits_iff (tokens (addClass s cfg.hiddenClass)) q hne
  have hfalse : ∀ x, hasClass x cfg.hiddenClass = false ↔ cfg.hiddenClass ∉ tokens x := by
    intro x
    rw [← hasClass_iff x _ hh]
    simp
  have hex : ∀ a : List Str, cfg.hiddenClass ∉ a →
      ((∃ t ∈ (tokens (addClass s cfg.hiddenClass)).erase cfg.hiddenClass, t ∈ a) ↔
        ∃ t ∈ tokens (addClass s cfg.hiddenClass), t ∈ a) := by
    intro a ha
    constructor
    · rintro ⟨t, ht, hta⟩
      exact ⟨t, List.mem_of_mem_erase ht, hta⟩
    · rintro ⟨t, ht, hta⟩
      have : t ≠ cfg.hiddenClass := fun h => ha (h ▸ hta)
      exact ⟨t, (List.mem_erase_of_ne this).2 ht, hta⟩
  unfold updateItem
  rw [hshow, hcl]
  by_cases h1 : (tokens (addClass s cfg.hiddenClass)).any (admitsPrimary p) = true
  · by_cases h2 : (tokens (addClass s cfg.hiddenClass)).any (admitsSecondary q) = true
    · simp only [h1, h2, Bool.and_self, if_true]
      have hr := nodup_removeClass _ cfg.hiddenClass hh hn1
      rw [classList_eq_tokens _ (plainSpaces_removeClass _ _ hs1) hr, hfalse,
        tokens_removeClass _ _ hh, hex p hp, hex q hq]
      constructor
      · intro _
        exact ⟨hP.1 h1, hQ.1 h2⟩
      · intro _
        rw [hn1.mem_erase_iff]
        simp
    · simp only [h1, h2, Bool.and_false, Bool.false_eq_true, if_false, hcl]
      rw [hfalse]
      constructor
      · intro h
        exact absurd hmem h
      · intro h
        exact absurd (hQ.2 h.2) h2
  · simp only [h1, Bool.false_and, Bool.false_eq_true, if_false, hcl]
    rw [hfalse]
    constructor
    · intro h
      exact absurd hmem h
    · intro h
      exact absurd (hP.2 h.1) h1

theorem getClassStaringWith_none (start : Str) (classes : List Str)
    (h : ∀ c ∈ classes, start.isPrefixOf c = false) :
    getClassStaringWith start classes = [] := by
  unfold getClassStaringWith
  induction classes with
  | nil => rfl
  | cons c cs ih =>
    rw [List.foldl_cons, h c (List.mem_cons_self _ _)]
    exact ih (fun d hd => h d (List.mem_cons_of_mem _ hd))

theorem tagAll_ne_nil (cfg : Config) : ([] : Str) ≠ tagAll cfg := by
  simp [tagAll]

/-- The item pass on a rendered element that is an item. -/
theorem renderElement_item (cfg : Config) (p q : List Str) (el : Str)
    (hnames : displayNamesOk cfg = true)
    (hitem : selectedBy (itemClass cfg) el = true)
    (hnodup : (tokens el).Nodup) (hplain : plainSpaces el) :
    ∃ e2, renderElement cfg p q el = updateItem cfg p q e2 ∧ (tokens e2).Nodup ∧
      plainSpaces e2 := by
  obtain ⟨ha, _, hf⟩ := isToken_display cfg hnames
  simp only [selectedBy] at hitem
  unfold renderElement
  simp only [hitem, if_true]
  refine ⟨_, rfl, ?_, ?_⟩
  · split
    · apply nodup_updateButton cfg _ _ ha hf
      split
      · exact nodup_updateButton cfg _ _ ha hf hnodup
      · exact hnodup
    · split
      · exact nodup_updateButton cfg _ _ ha hf hnodup
      · exact hnodup
  · split
    · apply plainSpaces_updateButton cfg _ _ ha hf
      split
      · exact plainSpaces_updateButton cfg _ _ ha hf hplain
      · exact hplain
    · split
      · exact plainSpaces_updateButton cfg _ _ ha hf hplain
      · exact hplain

/-! ## Sorting and removing in the arrays -/

theorem unitsLe_total (a b : List Nat) : unitsLe a b = true ∨ unitsLe b a = true := by
  induction a generalizing b with
  | nil => simp [unitsLe]
  | cons x xs ih =>
    cases b with
    | nil => simp [unitsLe]
    | cons y ys =>
      simp only [unitsLe, Bool.or_eq_true, Bool.and_eq_true, decide_eq_true_eq, beq_iff_eq]
      rcases Nat.lt_trichotomy x y with h | h | h
      · exact Or.inl (Or.inl h)
      · rcases ih ys with h1 | h1
        · exact Or.inl (Or.inr ⟨h, h1⟩)
        · exact Or.inr (Or.inr ⟨h.symm, h1⟩)
      · exact Or.inr (Or.inl h)

theorem unitsLe_trans (a b c : List Nat) (h1 : unitsLe a b = true) (h2 : unitsLe b c = true) :
    unitsLe a c = true := by
  induction a generalizing b c with
  | nil => simp [unitsLe]
  | cons x xs ih =>
    cases b with
    | nil => simp [unitsLe] at h1
    | cons y ys =>
      cases c with
      | nil => simp [unitsLe] at h2
      | cons z zs =>
        simp only [unitsLe, Bool.or_eq_true, Bool.and_eq_true, decide_eq_true_eq,
          beq_iff_eq] at h1 h2 ⊢
        rcases h1 with h1 | ⟨h1, h1r⟩
        · rcases h2 with h2 | ⟨h2, _⟩
          · exact Or.inl (by omega)
          · exact Or.inl (by omega)
        · rcases h2 with h2 | ⟨h2, h2r⟩
          · exact Or.inl (by omega)
          · exact Or.inr ⟨by omega, ih ys zs h1r h2r⟩

theorem sortLe_total (a b : Option Str) : sortLe a b = true ∨ sortLe b a = true := by
  cases a <;> cases b <;> simp [sortLe]
  exact unitsLe_total _ _

theorem sortLe_trans (a b c : Option Str) (h1 : sortLe a b = true) (h2 : sortLe b c = true) :
    sortLe a c = true := by
  cases a <;> cases b <;> cases c <;> simp_all [sortLe]
  exact unitsLe_trans _ _ _ h1 h2

theorem jsSort_sorted (l : List (Option Str)) :
    (jsSort l).Sorted (fun a b => sortLe a b = true) := by
  haveI : IsTotal (Option Str) (fun a b => sortLe a b = true) := ⟨sortLe_total⟩
  haveI : IsTrans (Option Str) (fun a b => sortLe a b = true) := ⟨sortLe_trans⟩
  exact List.sorted_insertionSort _ l

theorem jsSort_perm (l : List (Option Str)) : (jsSort l).Perm l :=
  List.perm_insertionSort _ l

/-- In a sorted array that holds `undefined`, `pop()` takes an `undefined`. -/
theorem dropLast_of_sorted (l : List (Option Str))
    (hs : l.Sorted (fun a b => sortLe a b = true)) (hn : none ∈ l) :
    l = l.dropLast ++ [none] := by
  have hne : l ≠ [] := List.ne_nil_of_mem hn
  have hl := List.dropLast_append_getLast hne
  have hlast : l.getLast hne = none := by
    rw [← hl] at hs hn
    rcases List.mem_append.1 hn with h | h
    · have := (List.pairwise_append.1 hs).2.2 none h (l.getLast hne) (by simp)
      cases hx : l.getLast hne with
      | none => rfl
      | some v => rw [hx] at this; simp [sortLe] at this
    · exact (List.mem_singleton.1 h).symm
  rw [hlast] at hl
  exact hl.symm

theorem lastIndexOf_eq_none (l : List Str) (x : Str) : lastIndexOf l x = none ↔ x ∉ l := by
  induction l with
  | nil => simp [lastIndexOf]
  | cons a l ih =>
    rw [lastIndexOf]
    cases h : lastIndexOf l x with
    | some i =>
      have : x ∈ l := by
        by_contra hx
        rw [ih.2 hx] at h
        exact absurd h (by simp)
      simp [this]
    | none =>
      have hx : x ∉ l := ih.1 h
      by_cases hax : a = x
      · simp [hax]
      · simp [hax, hx, Ne.symm hax]

/-- The index `lastIndexOf` returns is the place of the last occurrence. -/
theorem lastIndexOf_eq_some (l : List Str) (x : Str) (i : Nat) (h : lastIndexOf l x = some i) :
    ∃ pre post, l = pre ++ x :: post ∧ x ∉ post ∧ i = pre.length := by
  induction l generalizing i with
  | nil => simp [lastIndexOf] at h
  | cons a l ih =>
    rw [lastIndexOf] at h
    cases h1 : lastIndexOf l x with
    | some j =>
      rw [h1] at h
      simp only [Option.some.injEq] at h
      obtain ⟨pre, post, hl, hp, hj⟩ := ih j h1
      exact ⟨a :: pre, post, by simp [hl], hp, by simp [← h, hj]⟩
    | none =>
      rw [h1] at h
      have hx : x ∉ l := (lastIndexOf_eq_none l x).1 h1
      by_cases hax : a = x
      · simp only [hax, if_true, Option.some.injEq] at h
        exact ⟨[], l, by simp [hax], hx, by simp [← h]⟩
      · simp [hax] at h

theorem lastIndexOf_of_mem (l : List Str) (x : Str) (h : x ∈ l) :
    ∃ pre post, l = pre ++ x :: post ∧ x ∉ post ∧ lastIndexOf l x = some pre.length := by
  cases h1 : lastIndexOf l x with
  | none => exact absurd h ((lastIndexOf_eq_none l x).1 h1)
  | some i =>
    obtain ⟨pre, post, hl, hp, hi⟩ := lastIndexOf_eq_some l x i h1
    exact ⟨pre, post, hl, hp, by rw [hi]⟩

theorem lastIndexOf_append (pre post : List Str) (x : Str) (hp : x ∉ post) :
    lastIndexOf (pre ++ x :: post) x = some pre.length := by
  induction pre with
  | nil => simp [lastIndexOf, (lastIndexOf_eq_none post x).2 hp]
  | cons a pre ih => simp [lastIndexOf, ih]

/-- The primary removal takes out the last occurrence and keeps the order. -/
theorem spliceLast_eq (pre post : List Str) (x : Str) (hp : x ∉ post) :
    spliceLast (pre ++ x :: post) x = pre ++ post := by
  unfold spliceLast
  rw [lastIndexOf_append pre post x hp]
  simp [List.eraseIdx_append_of_length_le]

theorem filterMap_id_map_some (l : List Str) : (l.map some).filterMap id = l := by
  induction l with
  | nil => rfl
  | cons a l ih => simp [List.filterMap_cons, ih]

/-- The secondary removal: the array with the last occurrence replaced by
`undefined`, sorted, without the `undefined`. -/
theorem sortPop_eq (pre post : List Str) (x : Str) (hp : x ∉ post) :
    sortPop (pre ++ x :: post) x =
      (jsSort (pre.map some ++ none :: post.map some)).filterMap id := by
  unfold sortPop
  rw [lastIndexOf_append pre post x hp]
  have hm : ((pre ++ x :: post).map some).set pre.length none =
      pre.map some ++ none :: post.map some := by
    rw [List.map_append, List.map_cons]
    rw [List.set_append_right pre.length none (by simp)]
    simp
  simp only [hm]
  have hn : none ∈ jsSort (pre.map some ++ none :: post.map some) :=
    (jsSort_perm _).mem_iff.2 (by simp)
  have hd := dropLast_of_sorted _ (jsSort_sorted _) hn
  conv_rhs => rw [hd]
  simp [List.filterMap_append]

theorem sortPop_perm (pre post : List Str) (x : Str) (hp : x ∉ post) :
    (sortPop (pre ++ x :: post) x).Perm (pre ++ post) := by
  rw [sortPop_eq pre post x hp]
  have h := (jsSort_perm (pre.map some ++ none :: post.map some)).filterMap id
  have e : (pre.map some ++ none :: post.map some).filterMap id = pre ++ post := by
    rw [List.filterMap_append, List.filterMap_cons]
    simp [filterMap_id_map_some]
  rw [e] at h
  exact h

theorem sortPop_sorted (pre post : List Str) (x : Str) (hp : x ∉ post) :
    (sortPop (pre ++ x :: post) x).Sorted (fun a b => strLe a b = true) := by
  rw [sortPop_eq pre post x hp]
  unfold List.Sorted
  rw [List.pairwise_filterMap]
  refine (jsSort_sorted _).imp ?_
  intro a b hab u hu v hv
  simp only [id_eq, Option.mem_def] at hu hv
  subst hu hv
  simpa [sortLe, strLe] using hab

/-- Either removal leaves the array without one occurrence of the tag:
with the tag put back it is a permutation of the array before. -/
theorem spliceLast_cons_perm (l : List Str) (x : Str) (h : x ∈ l) :
    (x :: spliceLast l x).Perm l := by
  obtain ⟨pre, post, hl, hp, _⟩ := lastIndexOf_of_mem l x h
  subst hl
  rw [spliceLast_eq pre post x hp]
  exact List.perm_middle.symm

theorem sortPop_cons_perm (l : List Str) (x : Str) (h : x ∈ l) :
    (x :: sortPop l x).Perm l := by
  obtain ⟨pre, post, hl, hp, _⟩ := lastIndexOf_of_mem l x h
  subst hl
  exact ((sortPop_perm pre post x hp).cons x).trans List.perm_middle.symm

theorem nodup_spliceLast (l : List Str) (x : Str) (h : l.Nodup) : (spliceLast l x).Nodup := by
  unfold spliceLast
  split
  · exact h.sublist (List.eraseIdx_sublist l _)
  · exact h.sublist (List.dropLast_sublist l)

theorem nodup_sortPop (l : List Str) (x : Str) (hx : x ∈ l) (h : l.Nodup) :
    (sortPop l x).Nodup := by
  have hp := sortPop_cons_perm l x hx
  exact (List.nodup_cons.1 (hp.nodup_iff.2 h)).2

/-- A click keeps the arrays free of repeated tags. -/
theorem buildFilters_nodup (cfg : Config) (btnType : Lane) (t : Str) (p q : List Str)
    (hp : p.Nodup) (hq : q.Nodup) :
    (buildFilters cfg btnType t p q).1.Nodup ∧ (buildFilters cfg btnType t p q).2.Nodup := by
  have h1 := nodup_spliceLast p t hp
  have h2 := nodup_sortPop q t
  have h3 : ∀ l : List Str, l.Nodup → t ∉ l → (l ++ [t]).Nodup := by
    intro l hl ht
    exact List.Nodup.append hl (List.nodup_singleton t) (by simpa using ht)
  unfold buildFilters
  cases btnType <;> simp only [] <;> (repeat' split) <;> simp_all

theorem clickStep_nodup (host : Host) (cfg : Config) (st : State) (click : Event × Lane)
    (hp : st.activePrimaryFilters.Nodup) (hq : st.activeSecondaryFilters.Nodup) :
    (clickStep host cfg st click).activePrimaryFilters.Nodup ∧
      (clickStep host cfg st click).activeSecondaryFilters.Nodup := by
  have key : ∀ r : Option State, (r = some st ∨ r = mainLoop host cfg st click.1 click.2) →
      (r.getD st).activePrimaryFilters.Nodup ∧ (r.getD st).activeSecondaryFilters.Nodup := by
    intro r hr
    rcases hr with hr | hr
    · subst hr
      exact ⟨hp, hq⟩
    · subst hr
      by_cases hs : scanThrows host cfg st.elements = true
      · rw [(mainLoop_none_iff host cfg st click.1 click.2).2 hs]
        exact ⟨hp, hq⟩
      · rw [mainLoop_of_scan host cfg st click.1 click.2 (by simpa using hs)]
        exact buildFilters_nodup cfg click.2 _ _ _ hp hq
  apply key
  unfold clickHandler
  split
  · split
    · exact Or.inr rfl
    · exact Or.inl rfl
  · exact Or.inr rfl

theorem runClicks_nodup (host : Host) (cfg : Config) (clicks : List (Event × Lane))
    (st : State) (hp : st.activePrimaryFilters.Nodup) (hq : st.activeSecondaryFilters.Nodup) :
    (runClicks host cfg st clicks).activePrimaryFilters.Nodup ∧
      (runClicks host cfg st clicks).activeSecondaryFilters.Nodup := by
  induction clicks generalizing st with
  | nil => exact ⟨hp, hq⟩
  | cons c rest ih =>
    have h := clickStep_nodup host cfg st c hp hq
    exact ih (clickStep host cfg st c) h.1 h.2

/-! ## Frame of the display classes -/

theorem filter_erase_of_false (p : Str → Bool) (l : List Str) (n : Str) (hn : p n = false) :
    (l.erase n).filter p = l.filter p := by
  induction l with
  | nil => rfl
  | cons a l ih =>
    rw [List.erase_cons]
    by_cases h : (a == n) = true
    · have : a = n := by simpa using h
      subst this
      simp [hn]
    · simp only [h, if_false, Bool.false_eq_true]
      rw [List.filter_cons, List.filter_cons, ih]

theorem filter_removeClass (p : Str → Bool) (s n : Str) (hn : IsToken n) (hp : p n = false) :
    (tokens (removeClass s n)).filter p = (tokens s).filter p := by
  rw [tokens_removeClass s n hn, filter_erase_of_false p _ n hp]

theorem filter_addClass (p : Str → Bool) (s n : Str) (hn : IsToken n) (hp : p n = false) :
    (tokens (addClass s n)).filter p = (tokens s).filter p := by
  rw [tokens_addClass s n hn]
  split
  · rfl
  · simp [List.filter_append, hp]

theorem structuralTokens_removeClass (cfg : Config) (s n : Str) (hn : IsToken n)
    (h : n = cfg.activeClass ∨ n = cfg.fadeClass ∨ n = cfg.hiddenClass) :
    structuralTokens cfg (removeClass s n) = structuralTokens cfg s := by
  unfold structuralTokens
  apply filter_removeClass _ s n hn
  rcases h with h | h | h <;> simp [h]

theorem structuralTokens_addClass (cfg : Config) (s n : Str) (hn : IsToken n)
    (h : n = cfg.activeClass ∨ n = cfg.fadeClass ∨ n = cfg.hiddenClass) :
    structuralTokens cfg (addClass s n) = structuralTokens cfg s := by
  unfold structuralTokens
  apply filter_addClass _ s n hn
  rcases h with h | h | h <;> simp [h]

theorem structuralTokens_updateButton (cfg : Config) (active : List Str) (i : Str)
    (ha : IsToken cfg.activeClass) (hf : IsToken cfg.fadeClass) :
    structuralTokens cfg (updateButton cfg active i) = structuralTokens cfg i := by
  have h1 : structuralTokens cfg (removeClass i cfg.activeClass) = structuralTokens cfg i :=
    structuralTokens_removeClass cfg i _ ha (Or.inl rfl)
  have h2 : structuralTokens cfg (if cfg.fade then
      addClass (removeClass i cfg.activeClass) cfg.fadeClass
      else removeClass i cfg.activeClass) = structuralTokens cfg i := by
    split
    · rw [structuralTokens_addClass cfg _ _ hf (Or.inr (Or.inl rfl)), h1]
    · exact h1
  unfold updateButton
  simp only []
  split
  · rw [structuralTokens_removeClass cfg _ _ hf (Or.inr (Or.inl rfl)), h2]
  · refine activeLoop_invariant cfg _ (fun x => structuralTokens cfg x = structuralTokens cfg i)
      ?_ active _ h2
    intro el hel
    show structuralTokens cfg (removeClass (addClass el cfg.activeClass) cfg.fadeClass) = _
    rw [structuralTokens_removeClass cfg _ _ hf (Or.inr (Or.inl rfl)),
      structuralTokens_addClass cfg _ _ ha (Or.inl rfl), hel]

theorem structuralTokens_updateItem (cfg : Config) (p q : List Str) (s : Str)
    (hh : IsToken cfg.hiddenClass) :
    structuralTokens cfg (updateItem cfg p q s) = structuralTokens cfg s := by
  unfold updateItem
  refine showItem_invariant cfg p q (fun x => structuralTokens cfg x = structuralTokens cfg s)
    ?_ _ ?_
  · intro cur hcur
    show structuralTokens cfg (removeClass cur cfg.hiddenClass) = _
    rw [structuralTokens_removeClass cfg _ _ hh (Or.inr (Or.inr rfl)), hcur]
  · exact structuralTokens_addClass cfg _ _ hh (Or.inr (Or.inr rfl))

/-- The rendering of an element touches the display classes only. -/
theorem structuralTokens_renderElement (cfg : Config) (p q : List Str) (el : Str)
    (hnames : displayNamesOk cfg = true) :
    structuralTokens cfg (renderElement cfg p q el) = structuralTokens cfg el := by
  obtain ⟨ha, hh, hf⟩ := isToken_display cfg hnames
  unfold renderElement
  simp only []
  have h1 : structuralTokens cfg
      (if (splitOn isRegexSpace el).contains (btnPriClass cfg) = true then
        updateButton cfg p el else el) = structuralTokens cfg el := by
    split
    · exact structuralTokens_updateButton cfg p el ha hf
    · rfl
  have h2 : structuralTokens cfg
      (if (splitOn isRegexSpace el).contains (btnSecClass cfg) = true then
        updateButton cfg q
          (if (splitOn isRegexSpace el).contains (btnPriClass cfg) = true then
            updateButton cfg p el else el)
       else (if (splitOn isRegexSpace el).contains (btnPriClass cfg) = true then
            updateButton cfg p el else el)) = structuralTokens cfg el := by
    split
    · rw [structuralTokens_updateButton cfg q _ ha hf, h1]
    · exact h1
  split
  · rw [structuralTokens_updateItem cfg p q _ hh, h2]
  · exact h2

/-- In a lane with an active filter and with `fade` on, the button pass
leaves a button either active or faded. -/
theorem updateButton_faded_iff (cfg : Config) (active : List Str) (i : Str)
    (hfade : cfg.fade = true) (hne : active ≠ [])
    (ha : IsToken cfg.activeClass) (hf : IsToken cfg.fadeClass)
    (haf : cfg.activeClass ≠ cfg.fadeClass) (h : (tokens i).Nodup) :
    cfg.fadeClass ∈ tokens (updateButton cfg active i) ↔
      cfg.activeClass ∉ tokens (updateButton cfg active i) := by
  have h1 : (tokens (removeClass i cfg.activeClass)).Nodup := nodup_removeClass _ _ ha h
  have n1 : cfg.activeClass ∉ tokens (removeClass i cfg.activeClass) :=
    not_mem_removeClass _ _ ha h
  have hlen : ¬ active.length = 0 := by simpa using hne
  unfold updateButton
  simp only [hfade, if_true, hlen, if_false]
  have key := activeLoop_invariant cfg
    (getClassStaringWith (tagStart cfg)
      (classList (addClass (removeClass i cfg.activeClass) cfg.fadeClass)))
    (fun x => (tokens x).Nodup ∧ (cfg.fadeClass ∈ tokens x ↔ cfg.activeClass ∉ tokens x))
    ?_ active (addClass (removeClass i cfg.activeClass) cfg.fadeClass) ?_
  · exact key.2
  · intro el hel
    have hn2 := nodup_addClass el cfg.activeClass ha hel.1
    refine ⟨nodup_removeClass _ _ hf hn2, ?_⟩
    have m1 : cfg.activeClass ∈ tokens (removeClass (addClass el cfg.activeClass)
        cfg.fadeClass) := by
      rw [mem_removeClass_of_ne _ _ _ hf haf, mem_addClass _ _ _ ha]
      exact Or.inr rfl
    have m2 := not_mem_removeClass (addClass el cfg.activeClass) cfg.fadeClass hf hn2
    constructor
    · intro hx
      exact absurd hx m2
    · intro hx
      exact absurd m1 hx
  · refine ⟨nodup_addClass _ _ hf h1, ?_⟩
    have m1 : cfg.fadeClass ∈ tokens (addClass (removeClass i cfg.activeClass)
        cfg.fadeClass) := by
      rw [mem_addClass _ _ _ hf]
      exact Or.inr rfl
    have m2 : cfg.activeClass ∉ tokens (addClass (removeClass i cfg.activeClass)
        cfg.fadeClass) := by
      rw [mem_addClass _ _ _ hf]
      rintro (hx | hx)
      · exact n1 hx
      · exact haf hx
    exact ⟨fun _ => m2, fun _ => m1⟩

theorem mem_updateItem_iff (cfg : Config) (p q : List Str) (s x : Str)
    (hh : IsToken cfg.hiddenClass) (hx : x ≠ cfg.hiddenClass) :
    x ∈ tokens (updateItem cfg p q s) ↔ x ∈ tokens s := by
  unfold updateItem
  refine showItem_invariant cfg p q (fun y => x ∈ tokens y ↔ x ∈ tokens s) ?_ _ ?_
  · intro cur hcur
    show x ∈ tokens (removeClass cur cfg.hiddenClass) ↔ _
    rw [mem_removeClass_of_ne _ _ _ hh hx]
    exact hcur
  · show x ∈ tokens (addClass s cfg.hiddenClass) ↔ _
    rw [mem_addClass _ _ _ hh]
    simp [hx]

/-- The rendered button of a lane with an active filter, `fade` being on. -/
theorem renderElement_faded_iff (cfg : Config) (p q : List Str) (lane : Lane) (el : Str)
    (hfade : cfg.fade = true) (hnames : displayNamesOk cfg = true)
    (haf : cfg.activeClass ≠ cfg.fadeClass) (hha : cfg.activeClass ≠ cfg.hiddenClass)
    (hfh : cfg.fadeClass ≠ cfg.hiddenClass)
    (hbtn : selectedBy (btnClass cfg lane) el = true)
    (hone : lane = Lane.primary → selectedBy (btnSecClass cfg) el = false)
    (hnodup : (tokens el).Nodup)
    (hne : (match lane with
      | Lane.primary => p
      | Lane.secondary => q) ≠ []) :
    cfg.fadeClass ∈ tokens (renderElement cfg p q el) ↔
      cfg.activeClass ∉ tokens (renderElement cfg p q el) := by
  obtain ⟨ha, hh, hf⟩ := isToken_display cfg hnames
  have key : ∀ e2 : Str, (cfg.fadeClass ∈ tokens e2 ↔ cfg.activeClass ∉ tokens e2) →
      (cfg.fadeClass ∈ tokens (if (splitOn isRegexSpace el).contains (itemClass cfg) = true
        then updateItem cfg p q e2 else e2) ↔
       cfg.activeClass ∉ tokens (if (splitOn isRegexSpace el).contains (itemClass cfg) = true
        then updateItem cfg p q e2 else e2)) := by
    intro e2 h2
    split
    · rw [mem_updateItem_iff cfg p q e2 _ hh hfh, mem_updateItem_iff cfg p q e2 _ hh hha]
      exact h2
    · exact h2
  unfold renderElement
  simp only []
  apply key
  cases lane with
  | primary =>
    simp only [] at hne
    have hs := hone rfl
    simp only [selectedBy, btnClass] at hs hbtn
    simp only [hs, hbtn, if_true, Bool.false_eq_true, if_false]
    exact updateButton_faded_iff cfg p el hfade hne ha hf haf hnodup
  | secondary =>
    simp only [] at hne
    simp only [selectedBy, btnClass] at hbtn
    simp only [hbtn, if_true]
    apply updateButton_faded_iff cfg q _ hfade hne ha hf haf
    split
    · exact nodup_updateButton cfg p el ha hf hnodup
    · exact hnodup

/-! ## The filter tag of a button -/

theorem foldl_lastMatch_none (start out : Str) (post : List Str)
    (h : ∀ d ∈ post, start.isPrefixOf d = false) :
    post.foldl (fun out i => if start.isPrefixOf i then i else out) out = out := by
  induction post with
  | nil => rfl
  | cons d ds ih =>
    rw [List.foldl_cons, h d (List.mem_cons_self _ _)]
    exact ih (fun x hx => h x (List.mem_cons_of_mem _ hx))

/-- The class that starts with `start` and has no such class after it is
the result. -/
theorem getClassStaringWith_append (start c : Str) (pre post : List Str)
    (hc : start.isPrefixOf c = true) (h : ∀ d ∈ post, start.isPrefixOf d = false) :
    getClassStaringWith start (pre ++ c :: post) = c := by
  unfold getClassStaringWith
  rw [List.foldl_append, List.foldl_cons, hc]
  exact foldl_lastMatch_none start c post h

/-- Among classes of which one starts with `start` there is a last one. -/
theorem exists_last_match (start : Str) (classes : List Str)
    (h : ∃ c ∈ classes, start.isPrefixOf c = true) :
    ∃ pre c post, classes = pre ++ c :: post ∧ start.isPrefixOf c = true ∧
      ∀ d ∈ post, start.isPrefixOf d = false := by
  induction classes with
  | nil =>
    obtain ⟨c, hc, _⟩ := h
    simp at hc
  | cons a l ih =>
    by_cases hl : ∃ c ∈ l, start.isPrefixOf c = true
    · obtain ⟨pre, c, post, hcl, hc, hpost⟩ := ih hl
      exact ⟨a :: pre, c, post, by simp [hcl], hc, hpost⟩
    · have hnone : ∀ d ∈ l, start.isPrefixOf d = false := by
        intro d hd
        cases hx : start.isPrefixOf d with
        | false => rfl
        | true => exact absurd ⟨d, hd, hx⟩ hl
      obtain ⟨c, hc, hpc⟩ := h
      rcases List.mem_cons.1 hc with hca | hcl
      · subst hca
        exact ⟨[], c, l, rfl, hpc, hnone⟩
      · rw [hnone c hcl] at hpc
        exact absurd hpc (by simp)

theorem isPrefixOf_nil_right (start : Str) (h : start.isPrefixOf ([] : Str) = true) :
    start = [] := by
  cases start with
  | nil => rfl
  | cons a l => simp [List.isPrefixOf] at h

theorem tagStart_ne_nil (cfg : Config) : tagStart cfg ≠ [] := by
  simp [tagStart]

/-! ## Properties of the click handler -/

/-- C1: for every configuration, prior state and lane, a call of `mainLoop`
for a button whose filter tag is the "all" tag of the configuration returns
(the scan of the active buttons not throwing) and leaves the array of that
lane empty. -/
theorem all_button_clears_lane (host : Host) (cfg : Config) (st : State) (e : Event)
    (btnType : Lane) (hscan : scanThrows host cfg st.elements = false)
    (hall : btnFilterOf cfg e = tagAll cfg) :
    ∃ st1, mainLoop host cfg st e btnType = some st1 ∧ activeOf btnType st1 = [] := by
  obtain ⟨st1, h1⟩ := mainLoop_isSome host cfg st e btnType hscan
  refine ⟨st1, h1, ?_⟩
  rw [activeOf_click host cfg st st1 e btnType h1]
  simp [hall]

/-- C4: with `multiselect` and `toggle` on, from an empty array of a lane,
clicks on the distinct tags `A` and `B` (neither the "all" tag) give the
array `[A, B]`, whose tags are exactly `A` and `B`, and a further click on
`A` gives `[B]`; in either lane, every call returning. -/
theorem multiselect_toggle_accumulates (host : Host) (cfg : Config) (st : State)
    (eA eB eA2 : Event) (btnType : Lane) (A B : Str)
    (hprop : ∀ tokens, host.hasProperty cfg.activeClass tokens = false)
    (hm : cfg.multiselect = true) (ht : cfg.toggle = true)
    (hempty : activeOf btnType st = [])
    (hAB : A ≠ B) (hA : A ≠ tagAll cfg) (hB : B ≠ tagAll cfg)
    (heA : btnFilterOf cfg eA = A) (heB : btnFilterOf cfg eB = B)
    (heA2 : btnFilterOf cfg eA2 = A) :
    ∃ st2 st3, mainLoopSeq host cfg btnType st [eA, eB] = some st2 ∧
      activeOf btnType st2 = [A, B] ∧
      (∀ t, t ∈ activeOf btnType st2 ↔ t = A ∨ t = B) ∧
      mainLoop host cfg st2 eA2 btnType = some st3 ∧
      activeOf btnType st3 = [B] ∧
      (∀ t, t ∈ activeOf btnType st3 ↔ t = B) := by
  obtain ⟨st1, h1⟩ := mainLoop_isSome host cfg st eA btnType
    (scanThrows_of_noProperty host cfg _ hprop)
  obtain ⟨st2, h2⟩ := mainLoop_isSome host cfg st1 eB btnType
    (scanThrows_of_noProperty host cfg _ hprop)
  obtain ⟨st3, h3⟩ := mainLoop_isSome host cfg st2 eA2 btnType
    (scanThrows_of_noProperty host cfg _ hprop)
  have a1 : activeOf btnType st1 = [A] := by
    rw [activeOf_click host cfg st st1 eA btnType h1]
    simp [heA, hA, ht, hm, hempty]
  have hBA : ¬ B = A := fun hh => hAB hh.symm
  have a2 : activeOf btnType st2 = [A, B] := by
    rw [activeOf_click host cfg st1 st2 eB btnType h2]
    simp [heB, hB, ht, hm, a1, hBA]
  have a3 : activeOf btnType st3 = [B] := by
    rw [activeOf_click host cfg st2 st3 eA2 btnType h3]
    cases btnType <;>
      simp [heA2, hA, ht, a2, spliceLast_pair A B hAB, sortPop_pair A B hAB]
  refine ⟨st2, st3, ?_, a2, ?_, h3, a3, ?_⟩
  · simp [mainLoopSeq, h1, h2]
  · simp [a2]
  · simp [a3]

/-- C5: with `multiselect` off and `toggle` on, from an empty array of a
lane, clicks on the distinct tags `A` and `B` (neither the "all" tag) give
the array `[B]`; in either lane, every call returning. -/
theorem single_select_replaces (host : Host) (cfg : Config) (st : State)
    (eA eB : Event) (btnType : Lane) (A B : Str)
    (hprop : ∀ tokens, host.hasProperty cfg.activeClass tokens = false)
    (hm : cfg.multiselect = false) (ht : cfg.toggle = true)
    (hempty : activeOf btnType st = [])
    (hAB : A ≠ B) (hA : A ≠ tagAll cfg) (hB : B ≠ tagAll cfg)
    (heA : btnFilterOf cfg eA = A) (heB : btnFilterOf cfg eB = B) :
    ∃ st2, mainLoopSeq host cfg btnType st [eA, eB] = some st2 ∧
      activeOf btnType st2 = [B] := by
  obtain ⟨st1, h1⟩ := mainLoop_isSome host cfg st eA btnType
    (scanThrows_of_noProperty host cfg _ hprop)
  obtain ⟨st2, h2⟩ := mainLoop_isSome host cfg st1 eB btnType
    (scanThrows_of_noProperty host cfg _ hprop)
  have a1 : activeOf btnType st1 = [A] := by
    rw [activeOf_click host cfg st st1 eA btnType h1]
    simp [heA, hA, ht, hm, hempty]
  have hBA : ¬ B = A := fun hh => hAB hh.symm
  have a2 : activeOf btnType st2 = [B] := by
    rw [activeOf_click host cfg st1 st2 eB btnType h2]
    simp [heB, hB, ht, hm, a1, hBA]
  exact ⟨st2, by simp [mainLoopSeq, h1, h2], a2⟩

/-- C6: with `toggle` and `multiselect` off, for every prior state, either
lane and every tag `t` other than the "all" tag, any number `n ≥ 1` of
consecutive clicks on buttons with the tag `t` return and leave the array of
that lane equal to `[t]`. -/
theorem repeated_click_single_tag (host : Host) (cfg : Config) (st : State)
    (clicks : List Event) (btnType : Lane) (t : Str)
    (hprop : ∀ tokens, host.hasProperty cfg.activeClass tokens = false)
    (hm : cfg.multiselect = false) (ht : cfg.toggle = false)
    (hne : clicks ≠ []) (htag : t ≠ tagAll cfg)
    (hclicks : ∀ e ∈ clicks, btnFilterOf cfg e = t) :
    ∃ st1, mainLoopSeq host cfg btnType st clicks = some st1 ∧
      activeOf btnType st1 = [t] := by
  induction clicks generalizing st with
  | nil => exact absurd rfl hne
  | cons e rest ih =>
    obtain ⟨st1, h1⟩ := mainLoop_isSome host cfg st e btnType
      (scanThrows_of_noProperty host cfg _ hprop)
    have he : btnFilterOf cfg e = t := hclicks e (List.mem_cons_self _ _)
    have a1 : activeOf btnType st1 = [t] := by
      rw [activeOf_click host cfg st st1 e btnType h1]
      simp [he, htag, ht, hm]
    by_cases hr : rest = []
    · subst hr
      exact ⟨st1, by simp [mainLoopSeq, h1], a1⟩
    · obtain ⟨st2, h2, a2⟩ := ih st1 hr (fun e1 he1 => hclicks e1 (List.mem_cons_of_mem _ he1))
      exact ⟨st2, by simp [mainLoopSeq, h1, h2], a2⟩

theorem all_button_clears_lane_witness :
    scanThrows domHost (defaultConfig false true true) demoState.elements = false ∧
    btnFilterOf (defaultConfig false true true) (clickOn "sf-g-demo sf-btn-primary sf-f-all") =
      tagAll (defaultConfig false true true) ∧
    ∃ st1, mainLoop domHost (defaultConfig false true true) demoState
        (clickOn "sf-g-demo sf-btn-primary sf-f-all") Lane.primary = some st1 ∧
      activeOf Lane.primary st1 = [] :=
  ⟨by decide, by decide,
    all_button_clears_lane domHost (defaultConfig false true true) demoState
      (clickOn "sf-g-demo sf-btn-primary sf-f-all") Lane.primary (by decide) (by decide)⟩

theorem multiselect_toggle_accumulates_witness :
    ∃ st2 st3, mainLoopSeq domHost (defaultConfig true false true) Lane.primary
        (initialState demoElements)
        [clickOn "sf-g-demo sf-btn-primary sf-f-red",
         clickOn "sf-g-demo sf-btn-primary sf-f-blue"] = some st2 ∧
      activeOf Lane.primary st2 = ["sf-f-red".toList, "sf-f-blue".toList] ∧
      (∀ t, t ∈ activeOf Lane.primary st2 ↔ t = "sf-f-red".toList ∨ t = "sf-f-blue".toList) ∧
      mainLoop domHost (defaultConfig true false true) st2
        (clickOn "sf-g-demo sf-btn-primary sf-f-red sf-active") Lane.primary = some st3 ∧
      activeOf Lane.primary st3 = ["sf-f-blue".toList] ∧
      (∀ t, t ∈ activeOf Lane.primary st3 ↔ t = "sf-f-blue".toList) :=
  multiselect_toggle_accumulates domHost (defaultConfig true false true)
    (initialState demoElements) (clickOn "sf-g-demo sf-btn-primary sf-f-red")
    (clickOn "sf-g-demo sf-btn-primary sf-f-blue")
    (clickOn "sf-g-demo sf-btn-primary sf-f-red sf-active") Lane.primary
    "sf-f-red".toList "sf-f-blue".toList (fun tokens => domHost_sf_active tokens)
    rfl rfl rfl (by decide) (by decide) (by decide) (by decide) (by decide) (by decide)

theorem single_select_replaces_witness :
    ∃ st2, mainLoopSeq domHost (defaultConfig false false true) Lane.secondary
        (initialState demoElements)
        [clickOn "sf-g-demo sf-btn-secondary sf-f-big",
         clickOn "sf-g-demo sf-btn-secondary sf-f-small"] = some st2 ∧
      activeOf Lane.secondary st2 = ["sf-f-small".toList] :=
  single_select_replaces domHost (defaultConfig false false true)
    (initialState demoElements) (clickOn "sf-g-demo sf-btn-secondary sf-f-big")
    (clickOn "sf-g-demo sf-btn-secondary sf-f-small") Lane.secondary
    "sf-f-big".toList "sf-f-small".toList (fun tokens => domHost_sf_active tokens)
    rfl rfl rfl (by decide) (by decide) (by decide) (by decide) (by decide)

theorem repeated_click_single_tag_witness :
    ∃ st1, mainLoopSeq domHost (defaultConfig false false false) Lane.primary demoState
        [clickOn "sf-g-demo sf-btn-primary sf-f-blue",
         clickOn "sf-g-demo sf-btn-primary sf-f-blue sf-active",
         clickOn "sf-g-demo sf-btn-primary sf-f-blue sf-active"] = some st1 ∧
      activeOf Lane.primary st1 = ["sf-f-blue".toList] :=
  repeated_click_single_tag domHost (defaultConfig false false false) demoState
    [clickOn "sf-g-demo sf-btn-primary sf-f-blue",
     clickOn "sf-g-demo sf-btn-primary sf-f-blue sf-active",
     clickOn "sf-g-demo sf-btn-primary sf-f-blue sf-active"] Lane.primary
    "sf-f-blue".toList (fun tokens => domHost_sf_active tokens)
    rfl rfl (by simp) (by decide) (by decide)

/-- C7: with `multiselect` off, in every state reached from the initial
state by any sequence of click events (any lane, any button, `toggle` on or
off, events rejected by `btnFn` or ended by an exception included), each of
the two arrays has at most one element. -/
theorem multiselect_off_at_most_one (host : Host) (cfg : Config) (elements : List Str)
    (clicks : List (Event × Lane)) (hm : cfg.multiselect = false) :
    (runClicks host cfg (initialState elements) clicks).activePrimaryFilters.length ≤ 1 ∧
      (runClicks host cfg (initialState elements) clicks).activeSecondaryFilters.length ≤ 1 :=
  runClicks_length_le_one host cfg clicks hm (initialState elements) (by simp [initialState])
    (by simp [initialState])

theorem multiselect_off_at_most_one_witness :
    (runClicks domHost (defaultConfig false true true) (initialState demoElements)
        [(clickOn "sf-g-demo sf-btn-primary sf-f-red", Lane.primary),
         (clickOn "sf-g-demo sf-btn-secondary sf-f-big", Lane.secondary),
         (clickOn "sf-g-demo sf-btn-primary sf-f-blue", Lane.primary)]).activePrimaryFilters.length
        ≤ 1 ∧
    (runClicks domHost (defaultConfig false true true) (initialState demoElements)
        [(clickOn "sf-g-demo sf-btn-primary sf-f-red", Lane.primary),
         (clickOn "sf-g-demo sf-btn-secondary sf-f-big", Lane.secondary),
         (clickOn "sf-g-demo sf-btn-primary sf-f-blue", Lane.primary)]).activeSecondaryFilters.length
        ≤ 1 :=
  multiselect_off_at_most_one domHost (defaultConfig false true true) demoElements
    [(clickOn "sf-g-demo sf-btn-primary sf-f-red", Lane.primary),
     (clickOn "sf-g-demo sf-btn-secondary sf-f-big", Lane.secondary),
     (clickOn "sf-g-demo sf-btn-primary sf-f-blue", Lane.primary)] rfl

/-- C8: when a `btnFn` is configured and returns false for the event, the
handler leaves the whole state (both arrays and the class attribute of every
element) as it was; when it returns true, or no `btnFn` is configured, the
handler is `mainLoop`. -/
theorem btnFn_gate (host : Host) (cfg : Config) (st : State) (e : Event) (btnType : Lane) :
    (∀ btnFn, cfg.btnFn = some btnFn → btnFn e = false →
      clickHandler host cfg btnType st e = some st) ∧
    (∀ btnFn, cfg.btnFn = some btnFn → btnFn e = true →
      clickHandler host cfg btnType st e = mainLoop host cfg st e btnType) ∧
    (cfg.btnFn = none → clickHandler host cfg btnType st e = mainLoop host cfg st e btnType) := by
  refine ⟨?_, ?_, ?_⟩
  · intro f hf hfe
    simp [clickHandler, hf, hfe]
  · intro f hf hfe
    simp [clickHandler, hf, hfe]
  · intro hf
    simp [clickHandler, hf]

theorem btnFn_gate_witness :
    clickHandler domHost delegatedConfig Lane.primary demoState
        { currentTarget := "sf-g-demo sf-btn-primary sf-f-blue".toList,
          target := "icon".toList } = some demoState ∧
    clickHandler domHost delegatedConfig Lane.primary demoState
        (clickOn "sf-g-demo sf-btn-primary sf-f-blue") =
      mainLoop domHost delegatedConfig demoState
        (clickOn "sf-g-demo sf-btn-primary sf-f-blue") Lane.primary ∧
    clickHandler domHost (defaultConfig false false true) Lane.primary demoState
        (clickOn "sf-g-demo sf-btn-primary sf-f-blue") =
      mainLoop domHost (defaultConfig false false true) demoState
        (clickOn "sf-g-demo sf-btn-primary sf-f-blue") Lane.primary :=
  ⟨(btnFn_gate domHost delegatedConfig demoState
      { currentTarget := "sf-g-demo sf-btn-primary sf-f-blue".toList, target := "icon".toList }
      Lane.primary).1 _ rfl (by decide),
   (btnFn_gate domHost delegatedConfig demoState
      (clickOn "sf-g-demo sf-btn-primary sf-f-blue") Lane.primary).2.1 _ rfl (by decide),
   (btnFn_gate domHost (defaultConfig false false true) demoState
      (clickOn "sf-g-demo sf-btn-primary sf-f-blue") Lane.primary).2.2 rfl⟩

/-- C10: after a call of `mainLoop` that returns (with `fade` on, and
equally with `fade` off), a button of a lane whose array is empty carries no
`fadeClass`, whatever its classes were before, provided its class attribute
has no token twice, it is a button of that lane only (a button of both lanes
is faded again by the secondary pass), the display classes are class names
and `fadeClass` is not `hiddenClass`. -/
theorem no_fade_in_unconstrained_lane (host : Host) (cfg : Config) (st : State) (e : Event)
    (btnType lane : Lane) (i : Nat) (el : Str)
    (hscan : scanThrows host cfg st.elements = false)
    (hnames : displayNamesOk cfg = true) (hfh : cfg.fadeClass ≠ cfg.hiddenClass)
    (hel : st.elements[i]? = some el)
    (hbtn : selectedBy (btnClass cfg lane) el = true)
    (hone : lane = Lane.primary → selectedBy (btnSecClass cfg) el = false)
    (hnodup : (tokens el).Nodup) :
    ∃ st1, mainLoop host cfg st e btnType = some st1 ∧
      (activeOf lane st1 = [] →
        ∃ el1, st1.elements[i]? = some el1 ∧ hasClass el1 cfg.fadeClass = false) := by
  obtain ⟨st1, h1⟩ := mainLoop_isSome host cfg st e btnType hscan
  refine ⟨st1, h1, ?_⟩
  intro hempty
  have hf := (isToken_display cfg hnames).2.2
  have hm := renderElement_no_fade cfg st1.activePrimaryFilters st1.activeSecondaryFilters
    lane el hnames hfh hbtn hone hnodup (by cases lane <;> simpa [activeOf] using hempty)
  refine ⟨_, mainLoop_elements host cfg st st1 e btnType i el h1 hel, ?_⟩
  cases hh : hasClass (renderElement cfg st1.activePrimaryFilters
      st1.activeSecondaryFilters el) cfg.fadeClass with
  | false => rfl
  | true => exact absurd ((hasClass_iff _ _ hf).1 hh) hm

theorem no_fade_in_unconstrained_lane_witness :
    ∃ st1, mainLoop domHost (defaultConfig false true true) fadedState
        (clickOn "sf-g-demo sf-btn-primary sf-f-all sf-fade") Lane.primary = some st1 ∧
      (activeOf Lane.primary st1 = [] →
        ∃ el1, st1.elements[1]? = some el1 ∧
          hasClass el1 (defaultConfig false true true).fadeClass = false) :=
  no_fade_in_unconstrained_lane domHost (defaultConfig false true true) fadedState
    (clickOn "sf-g-demo sf-btn-primary sf-f-all sf-fade") Lane.primary Lane.primary 1
    "sf-g-demo sf-btn-primary sf-f-blue sf-fade".toList (by decide) (by decide) (by decide)
    rfl (by decide) (fun _ => by decide) (by decide)

/-- C2: after a call of `mainLoop` that returns, an item whose class
attribute has no token twice is without `hiddenClass` if and only if the
primary array is empty or holds a class of the item, and the secondary array
is empty or holds a class of the item; whatever the classes of the item were
before. The display classes are class names, `hiddenClass` is not used as a
filter tag, and the white space of the attribute is ASCII white space. -/
theorem item_visible_iff (host : Host) (cfg : Config) (st : State) (e : Event)
    (btnType : Lane) (i : Nat) (el : Str)
    (hscan : scanThrows host cfg st.elements = false)
    (hnames : displayNamesOk cfg = true)
    (hP : cfg.hiddenClass ∉ st.activePrimaryFilters)
    (hS : cfg.hiddenClass ∉ st.activeSecondaryFilters)
    (htag : btnFilterOf cfg e ≠ cfg.hiddenClass)
    (hel : st.elements[i]? = some el)
    (hitem : selectedBy (itemClass cfg) el = true)
    (hnodup : (tokens el).Nodup) (hplain : plainSpaces el) :
    ∃ st1 el1, mainLoop host cfg st e btnType = some st1 ∧ st1.elements[i]? = some el1 ∧
      (hasClass el1 cfg.hiddenClass = false ↔
        (st1.activePrimaryFilters = [] ∨
          ∃ t ∈ classList el1, t ∈ st1.activePrimaryFilters) ∧
        (st1.activeSecondaryFilters = [] ∨
          ∃ t ∈ classList el1, t ∈ st1.activeSecondaryFilters)) := by
  obtain ⟨st1, h1⟩ := mainLoop_isSome host cfg st e btnType hscan
  have hh := (isToken_display cfg hnames).2.1
  have hm := mem_buildFilters cfg btnType (btnFilterOf cfg e) cfg.hiddenClass
    st.activePrimaryFilters st.activeSecondaryFilters
  have hp1 : cfg.hiddenClass ∉ st1.activePrimaryFilters := by
    have := activeOf_mainLoop host cfg st st1 e btnType Lane.primary h1
    simp only [activeOf] at this
    rw [this]
    intro hmem
    rcases hm.1 hmem with h | h
    · exact hP h
    · exact htag h.symm
  have hs1 : cfg.hiddenClass ∉ st1.activeSecondaryFilters := by
    have := activeOf_mainLoop host cfg st st1 e btnType Lane.secondary h1
    simp only [activeOf] at this
    rw [this]
    intro hmem
    rcases hm.2 hmem with h | h
    · exact hS h
    · exact htag h.symm
  obtain ⟨e2, he2, hn2, hpl2⟩ := renderElement_item cfg st1.activePrimaryFilters
    st1.activeSecondaryFilters el hnames hitem hnodup hplain
  refine ⟨st1, _, h1, mainLoop_elements host cfg st st1 e btnType i el h1 hel, ?_⟩
  rw [he2]
  exact updateItem_visible cfg _ _ e2 hh hn2 hpl2 hp1 hs1

theorem item_visible_iff_witness :
    ∃ st1 el1, mainLoop domHost (defaultConfig false true true) fadedState
        (clickOn "sf-g-demo sf-btn-primary sf-f-blue sf-fade") Lane.primary = some st1 ∧
      st1.elements[5]? = some el1 ∧
      (hasClass el1 (defaultConfig false true true).hiddenClass = false ↔
        (st1.activePrimaryFilters = [] ∨
          ∃ t ∈ classList el1, t ∈ st1.activePrimaryFilters) ∧
        (st1.activeSecondaryFilters = [] ∨
          ∃ t ∈ classList el1, t ∈ st1.activeSecondaryFilters)) :=
  item_visible_iff domHost (defaultConfig false true true) fadedState
    (clickOn "sf-g-demo sf-btn-primary sf-f-blue sf-fade") Lane.primary 5
    "sf-g-demo sf-item sf-f-blue sf-f-big sf-hidden".toList
    (by decide) (by decide) (by decide) (by decide) (by decide) rfl (by decide) (by decide)
    (by unfold plainSpaces; decide)

/-- C3 (evaluation): after a click on the button `red`, the button
`reddish` carries `activeClass` although its filter tag `sf-f-reddish` is
not in the primary array: the button pass tests whether an active tag occurs
inside the tag of the button. -/
theorem substring_tag_marked_active :
    ∃ st1, mainLoop domHost (defaultConfig false false true) (initialState reddishElements)
        (clickOn "sf-g-demo sf-btn-primary sf-f-red") Lane.primary = some st1 ∧
      st1.activePrimaryFilters = ["sf-f-red".toList] ∧
      st1.elements[1]? = some "sf-g-demo sf-btn-primary sf-f-reddish sf-active".toList ∧
      getClassStaringWith (tagStart (defaultConfig false false true))
        (classList "sf-g-demo sf-btn-primary sf-f-reddish sf-active".toList) =
          "sf-f-reddish".toList ∧
      hasClass "sf-g-demo sf-btn-primary sf-f-reddish sf-active".toList
        (defaultConfig false false true).activeClass = true ∧
      "sf-f-reddish".toList ∉ st1.activePrimaryFilters ∧
      st1.elements[4]? = some "sf-g-demo sf-item sf-f-reddish sf-hidden".toList := by
  refine ⟨_, mainLoop_of_scan _ _ _ _ _ (by decide), ?_, ?_, ?_, ?_, ?_, ?_⟩ <;> decide

/-- C9 (counterexample): a click on a primary button without filter tag,
from the initial state, leaves `[""]` in the primary array, puts
`activeClass` on the primary buttons and `hiddenClass` on the items. -/
theorem untagged_click_changes_state :
    (∀ c ∈ classList (clickOn "sf-g-demo sf-btn-primary").currentTarget,
      (tagStart (defaultConfig false false true)).isPrefixOf c = false) ∧
    ∃ st1, mainLoop domHost (defaultConfig false false true) (initialState reddishElements)
        (clickOn "sf-g-demo sf-btn-primary") Lane.primary = some st1 ∧
      st1.activePrimaryFilters = [[]] ∧
      st1.activePrimaryFilters ≠ (initialState reddishElements).activePrimaryFilters ∧
      st1.elements =
        ["sf-g-demo sf-btn-primary sf-f-red sf-active",
         "sf-g-demo sf-btn-primary sf-f-reddish sf-active",
         "sf-g-demo sf-btn-primary sf-active", "sf-g-demo sf-item sf-f-red sf-hidden",
         "sf-g-demo sf-item sf-f-reddish sf-hidden"].map String.toList ∧
      st1.elements ≠ (initialState reddishElements).elements := by
  refine ⟨by decide, _, mainLoop_of_scan _ _ _ _ _ (by decide), ?_, ?_, ?_, ?_⟩ <;> decide

/-- C9 (amended): a call of `mainLoop` for a button without a class that
starts with the filter beginning returns (the scan of the active buttons not
throwing) and takes the empty string for the filter tag. The two arrays
afterwards are what "Build filter list" gives for the tag `""`: the array of
the other lane stays as it is, every tag of the array of the clicked lane
was in it before or is the empty string, and an empty array of the clicked
lane becomes `[""]`. The class attribute of every element afterwards is the
rendering of its class attribute before under the new arrays. -/
theorem untagged_click_uses_empty_tag (host : Host) (cfg : Config) (st : State) (e : Event)
    (btnType : Lane) (hscan : scanThrows host cfg st.elements = false)
    (hno : ∀ c ∈ classList e.currentTarget, (tagStart cfg).isPrefixOf c = false) :
    ∃ st1, mainLoop host cfg st e btnType = some st1 ∧
      st1.activePrimaryFilters =
        (buildFilters cfg btnType [] st.activePrimaryFilters st.activeSecondaryFilters).1 ∧
      st1.activeSecondaryFilters =
        (buildFilters cfg btnType [] st.activePrimaryFilters st.activeSecondaryFilters).2 ∧
      st1.elements = st.elements.map
        (renderElement cfg st1.activePrimaryFilters st1.activeSecondaryFilters) ∧
      activeOf (otherLane btnType) st1 = activeOf (otherLane btnType) st ∧
      (∀ t ∈ activeOf btnType st1, t ∈ activeOf btnType st ∨ t = []) ∧
      (activeOf btnType st = [] → activeOf btnType st1 = [[]]) := by
  obtain ⟨st1, h1⟩ := mainLoop_isSome host cfg st e btnType hscan
  have hb : btnFilterOf cfg e = [] := getClassStaringWith_none _ _ hno
  have hst := mainLoop_of_scan host cfg st e btnType hscan
  rw [h1, hb] at hst
  simp only [Option.some.injEq] at hst
  refine ⟨st1, h1, by rw [hst], by rw [hst], by rw [hst],
    activeOf_other host cfg st st1 e btnType h1, ?_, ?_⟩
  · intro t ht
    rw [activeOf_mainLoop host cfg st st1 e btnType btnType h1, hb] at ht
    have hm := mem_buildFilters cfg btnType [] t st.activePrimaryFilters
      st.activeSecondaryFilters
    cases btnType with
    | primary => exact hm.1 ht
    | secondary => exact hm.2 ht
  · intro hempty
    rw [activeOf_click host cfg st st1 e btnType h1, hb, hempty]
    have := tagAll_ne_nil cfg
    cases cfg.toggle <;> cases cfg.multiselect <;> simp [this]

theorem untagged_click_uses_empty_tag_witness :
    ∃ st1, mainLoop domHost (defaultConfig false false true) (initialState reddishElements)
        (clickOn "sf-g-demo sf-btn-primary") Lane.primary = some st1 ∧
      st1.activePrimaryFilters =
        (buildFilters (defaultConfig false false true) Lane.primary []
          (initialState reddishElements).activePrimaryFilters
          (initialState reddishElements).activeSecondaryFilters).1 ∧
      st1.activeSecondaryFilters =
        (buildFilters (defaultConfig false false true) Lane.primary []
          (initialState reddishElements).activePrimaryFilters
          (initialState reddishElements).activeSecondaryFilters).2 ∧
      st1.elements = (initialState reddishElements).elements.map
        (renderElement (defaultConfig false false true) st1.activePrimaryFilters
          st1.activeSecondaryFilters) ∧
      activeOf (otherLane Lane.primary) st1 =
        activeOf (otherLane Lane.primary) (initialState reddishElements) ∧
      (∀ t ∈ activeOf Lane.primary st1,
        t ∈ activeOf Lane.primary (initialState reddishElements) ∨ t = []) ∧
      (activeOf Lane.primary (initialState reddishElements) = [] →
        activeOf Lane.primary st1 = [[]]) :=
  untagged_click_uses_empty_tag domHost (defaultConfig false false true)
    (initialState reddishElements) (clickOn "sf-g-demo sf-btn-primary") Lane.primary
    (by decide) (by decide)

/-- C11: the scenario of the group `demo` with the default configuration
(`multiselect` off, `toggle` on). After the click on `red`: `item1` is
without `sf-hidden`, `item2` carries it, the button `red` carries
`sf-active` and the button `blue` does not. After the click on `all` that
follows: no item carries `sf-hidden` and no primary button carries
`sf-active`. -/
theorem scenario_red_then_all :
    ∃ st1 st2,
      mainLoop domHost (newSimpleItemFilter noOptions) (initialState scenarioElements)
        (clickOn "sf-g-demo sf-btn-primary sf-f-red") Lane.primary = some st1 ∧
      st1.elements =
        ["sf-g-demo sf-btn-primary sf-f-red sf-active", "sf-g-demo sf-btn-primary sf-f-blue",
         "sf-g-demo sf-btn-primary sf-f-all", "sf-g-demo sf-item sf-f-red",
         "sf-g-demo sf-item sf-f-blue sf-hidden"].map String.toList ∧
      hasClass "sf-g-demo sf-item sf-f-red".toList "sf-hidden".toList = false ∧
      hasClass "sf-g-demo sf-item sf-f-blue sf-hidden".toList "sf-hidden".toList = true ∧
      hasClass "sf-g-demo sf-btn-primary sf-f-red sf-active".toList "sf-active".toList = true ∧
      hasClass "sf-g-demo sf-btn-primary sf-f-blue".toList "sf-active".toList = false ∧
      mainLoop domHost (newSimpleItemFilter noOptions) st1
        (clickOn "sf-g-demo sf-btn-primary sf-f-all") Lane.primary = some st2 ∧
      st2.elements = scenarioElements ∧
      (∀ el ∈ st2.elements, hasClass el "sf-hidden".toList = false) ∧
      (∀ el ∈ st2.elements, hasClass el "sf-active".toList = false) ∧
      st2.activePrimaryFilters = [] := by
  refine ⟨_, _, mainLoop_of_scan _ _ _ _ _ (by decide), by decide, by decide, by decide,
    by decide, by decide, mainLoop_of_scan _ _ _ _ _ (by decide), by decide, by decide,
    by decide, by decide⟩

/-- C13: the constructor gives every key that the options record omits its
documented default (`prefix` "sf", `multiselect` false, `fade` false,
`toggle` true, `btnFn` undefined, and the three class names the effective
prefix followed by "-active", "-hidden" and "-fade"), and gives every key
that is supplied the supplied value. -/
theorem constructor_defaults (options : Options) :
    (options.pfx = none → (newSimpleItemFilter options).pfx = "sf".toList) ∧
    (options.multiselect = none → (newSimpleItemFilter options).multiselect = false) ∧
    (options.fade = none → (newSimpleItemFilter options).fade = false) ∧
    (options.toggle = none → (newSimpleItemFilter options).toggle = true) ∧
    (options.btnFn = none → (newSimpleItemFilter options).btnFn = none) ∧
    (options.activeClass = none → (newSimpleItemFilter options).activeClass =
      (newSimpleItemFilter options).pfx ++ "-active".toList) ∧
    (options.hiddenClass = none → (newSimpleItemFilter options).hiddenClass =
      (newSimpleItemFilter options).pfx ++ "-hidden".toList) ∧
    (options.fadeClass = none → (newSimpleItemFilter options).fadeClass =
      (newSimpleItemFilter options).pfx ++ "-fade".toList) ∧
    (∀ v, options.pfx = some v → (newSimpleItemFilter options).pfx = v) ∧
    (∀ v, options.multiselect = some v → (newSimpleItemFilter options).multiselect = v) ∧
    (∀ v, options.fade = some v → (newSimpleItemFilter options).fade = v) ∧
    (∀ v, options.toggle = some v → (newSimpleItemFilter options).toggle = v) ∧
    (∀ v, options.btnFn = some v → (newSimpleItemFilter options).btnFn = some v) ∧
    (∀ v, options.activeClass = some v → (newSimpleItemFilter options).activeClass = v) ∧
    (∀ v, options.hiddenClass = some v → (newSimpleItemFilter options).hiddenClass = v) ∧
    (∀ v, options.fadeClass = some v → (newSimpleItemFilter options).fadeClass = v) := by
  refine ⟨?_, ?_, ?_, ?_, ?_, ?_, ?_, ?_, ?_, ?_, ?_, ?_, ?_, ?_, ?_, ?_⟩ <;>
    intros <;> simp_all [newSimpleItemFilter]

theorem constructor_defaults_witness :
    newSimpleItemFilter noOptions = defaultConfig false false true ∧
    (newSimpleItemFilter { noOptions with pfx := some "my".toList, fade := some true }).pfx =
      "my".toList ∧
    (newSimpleItemFilter { noOptions with pfx := some "my".toList, fade := some true }).fade =
      true ∧
    (newSimpleItemFilter
      { noOptions with pfx := some "my".toList, fade := some true }).activeClass =
      "my-active".toList ∧
    (newSimpleItemFilter
      { noOptions with pfx := some "my".toList, fade := some true }).hiddenClass =
      "my-hidden".toList ∧
    (newSimpleItemFilter { noOptions with pfx := some "my".toList, fade := some true }).fadeClass =
      "my-fade".toList :=
  ⟨rfl,
   (constructor_defaults
      { noOptions with pfx := some "my".toList, fade := some true }).2.2.2.2.2.2.2.2.1 _ rfl,
   rfl, rfl, rfl, rfl⟩

/-- C12: with `toggle` on, in either lane, for every array `L` (repeated
tags allowed) and every tag `t` of `L` other than the "all" tag, the click
on `t` returns and leaves `L` without exactly one occurrence of `t`: with
`t` put back the new array is a permutation of `L`, so every other tag keeps
its number of occurrences and further occurrences of `t` stay. -/
theorem toggle_removes_one_occurrence (host : Host) (cfg : Config) (st : State) (e : Event)
    (btnType : Lane) (t : Str) (hscan : scanThrows host cfg st.elements = false)
    (ht : cfg.toggle = true) (he : btnFilterOf cfg e = t) (hall : t ≠ tagAll cfg)
    (hmem : t ∈ activeOf btnType st) :
    ∃ st1, mainLoop host cfg st e btnType = some st1 ∧
      (t :: activeOf btnType st1).Perm (activeOf btnType st) ∧
      ∀ x, (activeOf btnType st).countP (fun y => decide (y = x)) =
        (activeOf btnType st1).countP (fun y => decide (y = x)) + (if t = x then 1 else 0) := by
  obtain ⟨st1, h1⟩ := mainLoop_isSome host cfg st e btnType hscan
  have hperm : (t :: activeOf btnType st1).Perm (activeOf btnType st) := by
    have hc : (activeOf btnType st).contains t = true := by simp [hmem]
    rw [activeOf_click host cfg st st1 e btnType h1]
    simp only [he, hall, ht, if_false, if_true, hc]
    cases btnType with
    | primary => exact spliceLast_cons_perm _ t hmem
    | secondary => exact sortPop_cons_perm _ t hmem
  refine ⟨st1, h1, hperm, ?_⟩
  intro x
  rw [← hperm.countP_eq, List.countP_cons]
  simp

theorem toggle_removes_one_occurrence_witness :
    ∃ st1, mainLoop domHost (defaultConfig true false true) repeatedState
        (clickOn "sf-g-demo sf-btn-secondary sf-f-a") Lane.secondary = some st1 ∧
      ("sf-f-a".toList :: activeOf Lane.secondary st1).Perm
        (activeOf Lane.secondary repeatedState) ∧
      ∀ x, (activeOf Lane.secondary repeatedState).countP (fun y => decide (y = x)) =
        (activeOf Lane.secondary st1).countP (fun y => decide (y = x)) +
          (if "sf-f-a".toList = x then 1 else 0) :=
  toggle_removes_one_occurrence domHost (defaultConfig true false true) repeatedState
    (clickOn "sf-g-demo sf-btn-secondary sf-f-a") Lane.secondary "sf-f-a".toList
    (by decide) rfl (by decide) (by decide) (by decide)

/-- C17: a call of `mainLoop` in the primary lane returns with the secondary
array as it was (the same tags in the same order), and a call in the
secondary lane returns with the primary array as it was; for every
configuration, prior state and clicked button. -/
theorem lanes_independent (host : Host) (cfg : Config) (st : State) (e : Event)
    (hscan : scanThrows host cfg st.elements = false) :
    (∃ st1, mainLoop host cfg st e Lane.primary = some st1 ∧
      st1.activeSecondaryFilters = st.activeSecondaryFilters) ∧
    (∃ st1, mainLoop host cfg st e Lane.secondary = some st1 ∧
      st1.activePrimaryFilters = st.activePrimaryFilters) := by
  obtain ⟨st1, h1⟩ := mainLoop_isSome host cfg st e Lane.primary hscan
  obtain ⟨st2, h2⟩ := mainLoop_isSome host cfg st e Lane.secondary hscan
  exact ⟨⟨st1, h1, activeOf_other host cfg st st1 e Lane.primary h1⟩,
    ⟨st2, h2, activeOf_other host cfg st st2 e Lane.secondary h2⟩⟩

theorem lanes_independent_witness :
    (∃ st1, mainLoop domHost (defaultConfig true false true) repeatedState
        (clickOn "sf-g-demo sf-btn-primary sf-f-a") Lane.primary = some st1 ∧
      st1.activeSecondaryFilters = repeatedState.activeSecondaryFilters) ∧
    (∃ st1, mainLoop domHost (defaultConfig true false true) repeatedState
        (clickOn "sf-g-demo sf-btn-primary sf-f-a") Lane.secondary = some st1 ∧
      st1.activePrimaryFilters = repeatedState.activePrimaryFilters) :=
  lanes_independent domHost (defaultConfig true false true) repeatedState
    (clickOn "sf-g-demo sf-btn-primary sf-f-a") (by decide)

/-- C18: in every state reached from the initial state by any sequence of
click events, under any configuration, neither array holds a tag twice. -/
theorem no_duplicate_tags (host : Host) (cfg : Config) (elements : List Str)
    (clicks : List (Event × Lane)) :
    (runClicks host cfg (initialState elements) clicks).activePrimaryFilters.Nodup ∧
      (runClicks host cfg (initialState elements) clicks).activeSecondaryFilters.Nodup :=
  runClicks_nodup host cfg clicks (initialState elements) (by simp [initialState])
    (by simp [initialState])

/-- C19: with `toggle` and `multiselect` on, in either lane, for every array
`L` without repeated tag and every tag `t` other than the "all" tag, two
clicks on `t` in a row return and give an array with the same tags as `L`
(a permutation of `L`), whether `t` was in `L` or not. -/
theorem double_click_identity (host : Host) (cfg : Config) (st : State) (e1 e2 : Event)
    (btnType : Lane) (t : Str)
    (hprop : ∀ tokens, host.hasProperty cfg.activeClass tokens = false)
    (ht : cfg.toggle = true) (hm : cfg.multiselect = true)
    (hnodup : (activeOf btnType st).Nodup) (hall : t ≠ tagAll cfg)
    (he1 : btnFilterOf cfg e1 = t) (he2 : btnFilterOf cfg e2 = t) :
    ∃ st2, mainLoopSeq host cfg btnType st [e1, e2] = some st2 ∧
      (activeOf btnType st2).Perm (activeOf btnType st) ∧
      ∀ x, x ∈ activeOf btnType st2 ↔ x ∈ activeOf btnType st := by
  obtain ⟨st1, h1⟩ := mainLoop_isSome host cfg st e1 btnType
    (scanThrows_of_noProperty host cfg _ hprop)
  obtain ⟨st2, h2⟩ := mainLoop_isSome host cfg st1 e2 btnType
    (scanThrows_of_noProperty host cfg _ hprop)
  have a1 := activeOf_click host cfg st st1 e1 btnType h1
  have a2 := activeOf_click host cfg st1 st2 e2 btnType h2
  simp only [he1, hall, ht, hm, if_false, if_true, Bool.not_true, Bool.false_eq_true] at a1
  simp only [he2, hall, ht, hm, if_false, if_true, Bool.not_true, Bool.false_eq_true] at a2
  have hperm : (activeOf btnType st2).Perm (activeOf btnType st) := by
    by_cases hmem : t ∈ activeOf btnType st
    · have hc : (activeOf btnType st).contains t = true := by simp [hmem]
      rw [hc] at a1
      simp only [if_true] at a1
      have hp1 : (t :: activeOf btnType st1).Perm (activeOf btnType st) := by
        rw [a1]
        cases btnType with
        | primary => exact spliceLast_cons_perm _ t hmem
        | secondary => exact sortPop_cons_perm _ t hmem
      have hnot : t ∉ activeOf btnType st1 := (List.nodup_cons.1 (hp1.nodup_iff.2 hnodup)).1
      have hc1 : (activeOf btnType st1).contains t = false := by simp [hnot]
      rw [hc1] at a2
      simp only [Bool.false_eq_true, if_false] at a2
      rw [a2]
      exact (List.perm_append_comm.trans (by simp)).trans hp1
    · have hc : (activeOf btnType st).contains t = false := by simp [hmem]
      rw [hc] at a1
      simp only [Bool.false_eq_true, if_false] at a1
      have hmem1 : t ∈ activeOf btnType st1 := by simp [a1]
      have hc1 : (activeOf btnType st1).contains t = true := by simp [hmem1]
      rw [hc1] at a2
      simp only [if_true] at a2
      have hp2 : (t :: activeOf btnType st2).Perm (activeOf btnType st1) := by
        rw [a2]
        cases btnType with
        | primary => exact spliceLast_cons_perm _ t hmem1
        | secondary => exact sortPop_cons_perm _ t hmem1
      rw [a1] at hp2
      exact (hp2.trans (List.perm_append_comm.trans (by simp))).cons_inv
  exact ⟨st2, by simp [mainLoopSeq, h1, h2], hperm, fun x => hperm.mem_iff⟩

theorem double_click_identity_witness :
    ∃ st2, mainLoopSeq domHost (defaultConfig true false true) Lane.secondary demoState
        [clickOn "sf-g-demo sf-btn-secondary sf-f-big",
         clickOn "sf-g-demo sf-btn-secondary sf-f-big"] = some st2 ∧
      (activeOf Lane.secondary st2).Perm (activeOf Lane.secondary demoState) ∧
      ∀ x, x ∈ activeOf Lane.secondary st2 ↔ x ∈ activeOf Lane.secondary demoState :=
  double_click_identity domHost (defaultConfig true false true) demoState
    (clickOn "sf-g-demo sf-btn-secondary sf-f-big")
    (clickOn "sf-g-demo sf-btn-secondary sf-f-big") Lane.secondary "sf-f-big".toList
    (fun tokens => domHost_sf_active tokens) rfl rfl (by decide) (by decide) (by decide)
    (by decide)

/-- C15: the rules of the two lanes agree up to order. For every
configuration, every array `L` (repeated tags allowed) and every clicked tag
`t`, the array the secondary rule makes of `L` is a permutation of the array
the primary rule makes of `L`. The two arrays are equal except where a tag
is toggled off (`toggle` on, `t` in `L`, `t` not the "all" tag): there the
primary rule takes out the last occurrence of `t` and keeps the order of the
other tags, and the secondary rule returns the same tags in ascending order
(by UTF-16 code units). -/
theorem lanes_agree_up_to_order (cfg : Config) (L p q : List Str) (t : Str) :
    ((buildFilters cfg Lane.secondary t p L).2).Perm ((buildFilters cfg Lane.primary t L q).1) ∧
    (¬ (cfg.toggle = true ∧ t ≠ tagAll cfg ∧ t ∈ L) →
      (buildFilters cfg Lane.secondary t p L).2 = (buildFilters cfg Lane.primary t L q).1) ∧
    (cfg.toggle = true → t ≠ tagAll cfg → t ∈ L →
      ∃ pre post, L = pre ++ t :: post ∧ t ∉ post ∧
        (buildFilters cfg Lane.primary t L q).1 = pre ++ post ∧
        ((buildFilters cfg Lane.secondary t p L).2).Perm (pre ++ post) ∧
        ((buildFilters cfg Lane.secondary t p L).2).Sorted (fun a b => strLe a b = true)) := by
  have hP := buildFilters_lane cfg Lane.primary t L q
  have hS := buildFilters_lane cfg Lane.secondary t p L
  simp only [] at hP hS
  rw [hP, hS]
  by_cases hcase : cfg.toggle = true ∧ t ≠ tagAll cfg ∧ t ∈ L
  · obtain ⟨htg, hall, hmem⟩ := hcase
    have hc : L.contains t = true := by simp [hmem]
    obtain ⟨pre, post, hl, hpost, _⟩ := lastIndexOf_of_mem L t hmem
    simp only [hall, htg, hc, if_false, if_true]
    subst hl
    rw [spliceLast_eq pre post t hpost]
    exact ⟨sortPop_perm pre post t hpost, fun h => absurd ⟨trivial, hall, by simp⟩ h,
      fun _ _ _ => ⟨pre, post, rfl, hpost, rfl, sortPop_perm pre post t hpost,
        sortPop_sorted pre post t hpost⟩⟩
  · have heq : (if t = tagAll cfg then []
        else if cfg.toggle = true then
          if L.contains t = true then sortPop L t
          else (if (!cfg.multiselect) = true then [] else L) ++ [t]
        else if (!(if (!cfg.multiselect) = true then [] else L).contains t) = true then
          (if (!cfg.multiselect) = true then [] else L) ++ [t]
        else if (!cfg.multiselect) = true then [] else L) =
      (if t = tagAll cfg then []
        else if cfg.toggle = true then
          if L.contains t = true then spliceLast L t
          else (if (!cfg.multiselect) = true then [] else L) ++ [t]
        else if (!(if (!cfg.multiselect) = true then [] else L).contains t) = true then
          (if (!cfg.multiselect) = true then [] else L) ++ [t]
        else if (!cfg.multiselect) = true then [] else L) := by
      by_cases hall : t = tagAll cfg
      · simp [hall]
      · by_cases htg : cfg.toggle = true
        · have hmem : t ∉ L := fun h => hcase ⟨htg, hall, h⟩
          simp [hall, htg, hmem]
        · simp [hall, htg]
    refine ⟨by rw [heq], fun _ => heq, ?_⟩
    intro htg hall hmem
    exact absurd ⟨htg, hall, hmem⟩ hcase

theorem lanes_agree_up_to_order_witness :
    (buildFilters (defaultConfig true false true) Lane.primary "sf-f-a".toList
        repeatedState.activePrimaryFilters []).1 =
      ["sf-f-b", "sf-f-a", "sf-f-c"].map String.toList ∧
    (buildFilters (defaultConfig true false true) Lane.secondary "sf-f-a".toList
        [] repeatedState.activeSecondaryFilters).2 =
      ["sf-f-a", "sf-f-b", "sf-f-c"].map String.toList ∧
    ((buildFilters (defaultConfig true false true) Lane.secondary "sf-f-a".toList
        [] repeatedState.activeSecondaryFilters).2).Perm
      ((buildFilters (defaultConfig true false true) Lane.primary "sf-f-a".toList
        repeatedState.activePrimaryFilters []).1) ∧
    ∃ pre post, repeatedState.activePrimaryFilters = pre ++ "sf-f-a".toList :: post ∧
      "sf-f-a".toList ∉ post ∧
      (buildFilters (defaultConfig true false true) Lane.primary "sf-f-a".toList
        repeatedState.activePrimaryFilters []).1 = pre ++ post ∧
      ((buildFilters (defaultConfig true false true) Lane.secondary "sf-f-a".toList
        [] repeatedState.activePrimaryFilters).2).Perm (pre ++ post) ∧
      ((buildFilters (defaultConfig true false true) Lane.secondary "sf-f-a".toList
        [] repeatedState.activePrimaryFilters).2).Sorted (fun a b => strLe a b = true) :=
  ⟨by decide, by decide,
   (lanes_agree_up_to_order (defaultConfig true false true)
      repeatedState.activePrimaryFilters [] [] "sf-f-a".toList).1,
   (lanes_agree_up_to_order (defaultConfig true false true)
      repeatedState.activePrimaryFilters [] [] "sf-f-a".toList).2.2 rfl (by decide) (by decide)⟩

/-- C20: a call of `mainLoop` that returns changes display classes only. The
group has the same elements afterwards, and for every element the sequence
of its class tokens other than `activeClass`, `fadeClass` and `hiddenClass`
(the group, lane, item and filter-tag classes) is the same as before; the
three display classes being names of letters, digits and hyphens. -/
theorem click_keeps_structural_classes (host : Host) (cfg : Config) (st : State)
    (e : Event) (btnType : Lane) (hscan : scanThrows host cfg st.elements = false)
    (hnames : displayNamesOk cfg = true) :
    ∃ st1, mainLoop host cfg st e btnType = some st1 ∧
      st1.elements.length = st.elements.length ∧
      ∀ (i : Nat) (el : Str), st.elements[i]? = some el →
        ∃ el1, st1.elements[i]? = some el1 ∧
          structuralTokens cfg el1 = structuralTokens cfg el := by
  obtain ⟨st1, h1⟩ := mainLoop_isSome host cfg st e btnType hscan
  refine ⟨st1, h1, ?_, ?_⟩
  · have h2 := mainLoop_of_scan host cfg st e btnType hscan
    rw [h1] at h2
    simp only [Option.some.injEq] at h2
    rw [h2]
    simp
  · intro i el hel
    exact ⟨_, mainLoop_elements host cfg st st1 e btnType i el h1 hel,
      structuralTokens_renderElement cfg _ _ el hnames⟩

theorem click_keeps_structural_classes_witness :
    ∃ st1, mainLoop domHost (defaultConfig false true true) fadedState
        (clickOn "sf-g-demo sf-btn-primary sf-f-blue sf-fade") Lane.primary = some st1 ∧
      st1.elements.length = fadedState.elements.length ∧
      ∀ (i : Nat) (el : Str), fadedState.elements[i]? = some el →
        ∃ el1, st1.elements[i]? = some el1 ∧
          structuralTokens (defaultConfig false true true) el1 =
            structuralTokens (defaultConfig false true true) el :=
  click_keeps_structural_classes domHost (defaultConfig false true true) fadedState
    (clickOn "sf-g-demo sf-btn-primary sf-f-blue sf-fade") Lane.primary (by decide) (by decide)

/-- C16 (counterexample): on the class attribute `sf-active sf-active` one
call of `removeClass` leaves `sf-active`, which still has the class, and a
second call leaves the empty attribute. -/
theorem removeClass_twice_differs :
    isClassName "sf-active".toList = true ∧
    removeClass "sf-active sf-active".toList "sf-active".toList = "sf-active".toList ∧
    hasClass (removeClass "sf-active sf-active".toList "sf-active".toList)
      "sf-active".toList = true ∧
    removeClass (removeClass "sf-active sf-active".toList "sf-active".toList)
      "sf-active".toList = [] ∧
    removeClass (removeClass "sf-active sf-active".toList "sf-active".toList)
      "sf-active".toList ≠ removeClass "sf-active sf-active".toList "sf-active".toList := by
  decide

/-- C16 (amended): for a class name `n` of letters, digits and hyphens,
`removeClass` is a no-op on every class attribute that has not the class,
and on a class attribute in which `n` is a token at most once a second call
of `removeClass` changes nothing and the class is gone after the first. -/
theorem removeClass_idempotent (s n : Str) (hn : isClassName n = true) :
    (hasClass s n = false → removeClass s n = s) ∧
    ((tokens s).count n ≤ 1 →
      removeClass (removeClass s n) n = removeClass s n ∧
        hasClass (removeClass s n) n = false) := by
  have ht := isToken_of_isClassName n hn
  have habs : ∀ x, hasClass x n = false → n ∉ tokens x := by
    intro x hx hmem
    rw [(hasClass_iff x n ht).2 hmem] at hx
    exact absurd hx (by simp)
  refine ⟨fun h => removeClass_of_not_mem s n ht (habs s h), ?_⟩
  intro hcount
  have hnot : n ∉ tokens (removeClass s n) := by
    rw [tokens_removeClass s n ht, ← List.count_eq_zero, List.count_erase_self]
    omega
  refine ⟨removeClass_of_not_mem _ n ht hnot, ?_⟩
  cases hh : hasClass (removeClass s n) n with
  | false => rfl
  | true => exact absurd ((hasClass_iff _ n ht).1 hh) hnot

theorem removeClass_idempotent_witness :
    removeClass "sf-g-demo sf-item".toList "sf-hidden".toList = "sf-g-demo sf-item".toList ∧
    removeClass (removeClass "sf-g-demo sf-hidden sf-item".toList "sf-hidden".toList)
        "sf-hidden".toList =
      removeClass "sf-g-demo sf-hidden sf-item".toList "sf-hidden".toList ∧
    hasClass (removeClass "sf-g-demo sf-hidden sf-item".toList "sf-hidden".toList)
      "sf-hidden".toList = false :=
  ⟨(removeClass_idempotent "sf-g-demo sf-item".toList "sf-hidden".toList (by decide)).1
      (by decide),
   (removeClass_idempotent "sf-g-demo sf-hidden sf-item".toList "sf-hidden".toList
      (by decide)).2 (by decide)⟩

/-- C14 (counterexample): with `fade` on, a button whose class attribute
holds the active class twice carries both the active class and the fade
class after a click on another button of its lane. -/
theorem repeated_class_active_and_faded :
    (defaultConfig false true true).activeClass ≠ (defaultConfig false true true).fadeClass ∧
    ∃ st1, mainLoop domHost (defaultConfig false true true)
        (initialState repeatedClassElements)
        (clickOn "sf-g-demo sf-btn-primary sf-f-red") Lane.primary = some st1 ∧
      st1.activePrimaryFilters = ["sf-f-red".toList] ∧
      st1.elements[1]? =
        some "sf-g-demo sf-btn-primary sf-f-blue sf-active sf-fade".toList ∧
      hasClass "sf-g-demo sf-btn-primary sf-f-blue sf-active sf-fade".toList
        (defaultConfig false true true).fadeClass = true ∧
      hasClass "sf-g-demo sf-btn-primary sf-f-blue sf-active sf-fade".toList
        (defaultConfig false true true).activeClass = true ∧
      ¬ (hasClass "sf-g-demo sf-btn-primary sf-f-blue sf-active sf-fade".toList
          (defaultConfig false true true).fadeClass = true ↔
        hasClass "sf-g-demo sf-btn-primary sf-f-blue sf-active sf-fade".toList
          (defaultConfig false true true).activeClass = false) := by
  refine ⟨by decide, _, mainLoop_of_scan _ _ _ _ _ (by decide), ?_, ?_, ?_, ?_, ?_⟩ <;> decide

/-- C14 (amended): with `fade` on and `activeClass` different from
`fadeClass`, after a call of `mainLoop` that returns, a button of a lane
whose array is not empty carries `fadeClass` if and only if it does not
carry `activeClass`, provided its class attribute has no token twice, it is
a button of that lane only, the display classes are class names and
`hiddenClass` is neither of the two. -/
theorem faded_iff_not_active (host : Host) (cfg : Config) (st : State) (e : Event)
    (btnType lane : Lane) (i : Nat) (el : Str)
    (hscan : scanThrows host cfg st.elements = false)
    (hfade : cfg.fade = true) (hnames : displayNamesOk cfg = true)
    (haf : cfg.activeClass ≠ cfg.fadeClass) (hha : cfg.activeClass ≠ cfg.hiddenClass)
    (hfh : cfg.fadeClass ≠ cfg.hiddenClass)
    (hel : st.elements[i]? = some el)
    (hbtn : selectedBy (btnClass cfg lane) el = true)
    (hone : lane = Lane.primary → selectedBy (btnSecClass cfg) el = false)
    (hnodup : (tokens el).Nodup) :
    ∃ st1, mainLoop host cfg st e btnType = some st1 ∧
      (activeOf lane st1 ≠ [] →
        ∃ el1, st1.elements[i]? = some el1 ∧
          (hasClass el1 cfg.fadeClass = true ↔ hasClass el1 cfg.activeClass = false)) := by
  obtain ⟨st1, h1⟩ := mainLoop_isSome host cfg st e btnType hscan
  refine ⟨st1, h1, ?_⟩
  intro hne
  obtain ⟨ha, _, hf⟩ := isToken_display cfg hnames
  have hm := renderElement_faded_iff cfg st1.activePrimaryFilters st1.activeSecondaryFilters
    lane el hfade hnames haf hha hfh hbtn hone hnodup
    (by cases lane <;> simpa [activeOf] using hne)
  refine ⟨_, mainLoop_elements host cfg st st1 e btnType i el h1 hel, ?_⟩
  rw [hasClass_iff _ _ hf, hm, ← hasClass_iff _ _ ha]
  simp

theorem faded_iff_not_active_witness :
    ∃ st1, mainLoop domHost (defaultConfig false true true) fadedState
        (clickOn "sf-g-demo sf-btn-primary sf-f-blue sf-fade") Lane.primary = some st1 ∧
      (activeOf Lane.primary st1 ≠ [] →
        ∃ el1, st1.elements[0]? = some el1 ∧
          (hasClass el1 (defaultConfig false true true).fadeClass = true ↔
            hasClass el1 (defaultConfig false true true).activeClass = false)) :=
  faded_iff_not_active domHost (defaultConfig false true true) fadedState
    (clickOn "sf-g-demo sf-btn-primary sf-f-blue sf-fade") Lane.primary Lane.primary 0
    "sf-g-demo sf-btn-primary sf-f-red sf-active".toList (by decide) rfl (by decide)
    (by decide) (by decide) (by decide) rfl (by decide) (fun _ => by decide) (by decide)

/-- C21: `getClassStaringWith(start, classes)` returns the empty string
when no class starts with `start`, and otherwise the last class, in the
order of the list, that starts with `start`. For the beginning of a filter
tag, with which `mainLoop` calls the function (and for every `start` that is
not empty, and for every list without the empty string, as a `classList`
is), the result is the empty string if and only if no class starts with
`start`; so of several filter classes of a button the last one is its
filter tag. -/
theorem getClassStaringWith_last (start : Str) (classes : List Str) :
    ((∀ c ∈ classes, start.isPrefixOf c = false) → getClassStaringWith start classes = []) ∧
    ((∃ c ∈ classes, start.isPrefixOf c = true) →
      ∃ pre c post, classes = pre ++ c :: post ∧ start.isPrefixOf c = true ∧
        (∀ d ∈ post, start.isPrefixOf d = false) ∧ getClassStaringWith start classes = c) ∧
    ((start ≠ [] ∨ ∀ c ∈ classes, c ≠ []) →
      (getClassStaringWith start classes = [] ↔
        ∀ c ∈ classes, start.isPrefixOf c = false)) ∧
    (∀ cfg : Config, start = tagStart cfg →
      (getClassStaringWith start classes = [] ↔
        ∀ c ∈ classes, start.isPrefixOf c = false)) := by
  have hlast : (∃ c ∈ classes, start.isPrefixOf c = true) →
      ∃ pre c post, classes = pre ++ c :: post ∧ start.isPrefixOf c = true ∧
        (∀ d ∈ post, start.isPrefixOf d = false) ∧ getClassStaringWith start classes = c := by
    intro h
    obtain ⟨pre, c, post, hcl, hc, hpost⟩ := exists_last_match start classes h
    exact ⟨pre, c, post, hcl, hc, hpost, by
      rw [hcl]
      exact getClassStaringWith_append start c pre post hc hpost⟩
  have hiff : (start ≠ [] ∨ ∀ c ∈ classes, c ≠ []) →
      (getClassStaringWith start classes = [] ↔
        ∀ c ∈ classes, start.isPrefixOf c = false) := by
    intro hs
    constructor
    · intro hres d hd
      cases hx : start.isPrefixOf d with
      | false => rfl
      | true =>
        exfalso
        obtain ⟨pre, c, post, hcl, hc, _, hr⟩ := hlast ⟨d, hd, hx⟩
        rw [hres] at hr
        subst hr
        rcases hs with hs | hs
        · exact hs (isPrefixOf_nil_right start hc)
        · exact hs [] (by simp [hcl]) rfl
    · exact getClassStaringWith_none start classes
  refine ⟨getClassStaringWith_none start classes, hlast, hiff, ?_⟩
  intro cfg hcfg
  exact hiff (Or.inl (by rw [hcfg]; exact tagStart_ne_nil cfg))

theorem getClassStaringWith_last_witness :
    getClassStaringWith "sf-f-".toList
        (["sf-g-demo", "sf-btn-secondary"].map String.toList) = [] ∧
    (∃ pre c post,
      ["sf-g-demo", "sf-f-red", "sf-btn-primary", "sf-f-blue", "sf-active"].map String.toList =
        pre ++ c :: post ∧
      List.isPrefixOf "sf-f-".toList c = true ∧
      (∀ d ∈ post, List.isPrefixOf "sf-f-".toList d = false) ∧
      getClassStaringWith "sf-f-".toList
        (["sf-g-demo", "sf-f-red", "sf-btn-primary", "sf-f-blue", "sf-active"].map
          String.toList) = c) ∧
    getClassStaringWith "sf-f-".toList
        (["sf-g-demo", "sf-f-red", "sf-btn-primary", "sf-f-blue", "sf-active"].map
          String.toList) = "sf-f-blue".toList ∧
    (getClassStaringWith (tagStart (defaultConfig false false true))
        (classList "sf-g-demo sf-btn-primary".toList) = [] ↔
      ∀ c ∈ classList "sf-g-demo sf-btn-primary".toList,
        (tagStart (defaultConfig false false true)).isPrefixOf c = false) :=
  ⟨(getClassStaringWith_last "sf-f-".toList
      (["sf-g-demo", "sf-btn-secondary"].map String.toList)).1 (by decide),
   (getClassStaringWith_last "sf-f-".toList
      (["sf-g-demo", "sf-f-red", "sf-btn-primary", "sf-f-blue", "sf-active"].map
        String.toList)).2.1 ⟨"sf-f-red".toList, by decide, by decide⟩,
   by decide,
   (getClassStaringWith_last (tagStart (defaultConfig false false true))
      (classList "sf-g-demo sf-btn-primary".toList)).2.2.2 (defaultConfig false false true) rfl⟩

end SimpleItemFilter
